import Mathlib

/-!
Shallow embedding of the networks repository (a UDP software-defined routing
control plane): the binary codec of common.py, and the routing engine and
controller driver logic of controller.py.

Conventions of the embedding:
* Python ints are Lean Int; byte strings are List Nat (one Nat per byte);
  edge costs and distances are Nat (the config costs are positive integers).
* Python dicts are association lists (List (key, value)); insertion order is
  preserved, d.get(k, default) is lookupD, d[k] = v is setk, and a dict
  comprehension is dictOfList.  Python dict equality is pyListDictEq.
* Fallible Python code (struct.unpack on short data, bytes.index with no
  terminator, KeyError on a missing dict key) is Option-valued: none models
  the raised exception.
* The unbounded Python loops (the Dijkstra priority-queue loop and the
  predecessor walk) take explicit fuel; the fuel chosen is proven sufficient
  for every valid input, so the embedding agrees with the source there.
-/

/-- Python d.get(k, default). -/
def lookupD {α β : Type} [BEq α] (l : List (α × β)) (k : α) (d : β) : β :=
  (l.lookup k).getD d

/-- Python d[k] = v: overwrite an existing key in place, else append
    (dicts preserve insertion order). -/
def setk {α β : Type} [BEq α] (l : List (α × β)) (k : α) (v : β) : List (α × β) :=
  if l.any (fun p => p.1 == k) then l.map (fun p => if p.1 == k then (k, v) else p)
  else l ++ [(k, v)]

/-- Python dict built from a pair sequence (a dict comprehension):
    first-occurrence insertion order, later values for a key overwrite. -/
def dictOfList {α β : Type} [BEq α] (l : List (α × β)) : List (α × β) :=
  l.foldl (fun m p => setk m p.1 p.2) []

/-- Python dict equality (==): same key set, equal value per key.
    Key order is irrelevant; the values themselves compare with =
    (for list values this is order-sensitive, as in Python). -/
def pyListDictEq {α β : Type} [BEq α] [DecidableEq β] (a b : List (α × β)) : Bool :=
  a.all (fun p => decide (b.lookup p.1 = some p.2)) &&
  b.all (fun p => decide (a.lookup p.1 = some p.2))

/-! ## common.py : constants and binary codec -/

def LOCALHOST : List Nat := [49, 50, 55, 46, 48, 46, 48, 46, 49]

def UNREACHABLE_DISTANCE : Nat := 9999
def UNREACHABLE_HOP : Int := -1

def BIN_REGISTER_REQUEST : Nat := 1
def BIN_REGISTER_RESPONSE : Nat := 2
def BIN_ROUTING_UPDATE : Nat := 3
def BIN_KEEP_ALIVE : Nat := 4
def BIN_TOPOLOGY_UPDATE : Nat := 5

/-- Neighbor record carried in REGISTER_RESPONSE.  The host is the UTF-8
    byte string of the Python host str (NUL-free in every valid value). -/
structure NeighborInfo where
  id : Int
  alive : Bool
  host : List Nat
  port : Int
deriving DecidableEq, Repr

/-- A routing entry is the Python list [switch_id, dest_id, next_hop, distance]. -/
abbrev RoutingEntry := List Int

/-- struct.pack format B (one unsigned byte). -/
def packU8 (x : Nat) : List Nat := [x % 256]

/-- struct.pack format H, big-endian (two bytes).  Python raises struct.error
    for x outside 0..65535; callers stay in range. -/
def packU16 (x : Nat) : List Nat := [x / 256 % 256, x % 256]

/-- struct.pack format i, big-endian (four bytes of the twos-complement value).
    Python raises struct.error outside the signed 32-bit range; callers stay
    in range. -/
def packI32 (x : Int) : List Nat :=
  [(x % 2 ^ 32).toNat / 2 ^ 24 % 256, (x % 2 ^ 32).toNat / 2 ^ 16 % 256,
   (x % 2 ^ 32).toNat / 2 ^ 8 % 256, (x % 2 ^ 32).toNat % 256]

/-- Read exactly k bytes (struct.unpack on data[off:off+k]; error if short). -/
def readBytes (k : Nat) (data : List Nat) : Option (List Nat × List Nat) :=
  if k ≤ data.length then some (data.take k, data.drop k) else none

def readU8 (data : List Nat) : Option (Nat × List Nat) :=
  match data with
  | [] => none
  | b :: rest => some (b, rest)

def readU16 (data : List Nat) : Option (Nat × List Nat) :=
  match data with
  | b0 :: b1 :: rest => some (b0 * 256 + b1, rest)
  | _ => none

def readI32 (data : List Nat) : Option (Int × List Nat) :=
  match data with
  | b0 :: b1 :: b2 :: b3 :: rest =>
      let u : Nat := b0 * 2 ^ 24 + b1 * 2 ^ 16 + b2 * 2 ^ 8 + b3
      some (if u < 2 ^ 31 then (u : Int) else (u : Int) - 2 ^ 32, rest)
  | _ => none

/-- bytes.index(0, offset): split at the first NUL, error when absent. -/
def takeUntilZero : List Nat → Option (List Nat × List Nat)
  | [] => none
  | b :: rest =>
    if b = 0 then some ([], rest)
    else match takeUntilZero rest with
      | none => none
      | some (h, r) => some (b :: h, r)

def serialize_register_request (switch_id port : Int) : List Nat :=
  packU8 BIN_REGISTER_REQUEST ++ packI32 switch_id ++ packI32 port

def serialize_register_response (neighbors : List NeighborInfo) : List Nat :=
  packU8 BIN_REGISTER_RESPONSE ++ packU16 neighbors.length ++
    (neighbors.map (fun nbr =>
      packI32 nbr.id ++ packU8 (if nbr.alive then 1 else 0) ++ packI32 nbr.port ++
        nbr.host ++ [0])).flatten

/-- Route fields route[0]..route[3]; entries produced by the controller always
    have exactly four fields (Python would raise IndexError otherwise). -/
def serialize_routing_update (routes : List RoutingEntry) : List Nat :=
  packU8 BIN_ROUTING_UPDATE ++ packU16 routes.length ++
    (routes.map (fun r =>
      packI32 (r.getD 0 0) ++ packI32 (r.getD 1 0) ++ packI32 (r.getD 2 0) ++
        packI32 (r.getD 3 0))).flatten

def serialize_keep_alive (switch_id : Int) : List Nat :=
  packU8 BIN_KEEP_ALIVE ++ packI32 switch_id

def serialize_topology_update (switch_id : Int) (neighbors : List (Int × Bool)) : List Nat :=
  packU8 BIN_TOPOLOGY_UPDATE ++ packI32 switch_id ++ packU16 neighbors.length ++
    (neighbors.map (fun p => packI32 p.1 ++ packU8 (if p.2 then 1 else 0))).flatten

def deserialize_register_request (data : List Nat) : Option (Int × Int) := do
  let (hdr, _) ← readBytes 9 data
  let (_, r1) ← readU8 hdr
  let (sid, r2) ← readI32 r1
  let (port, _) ← readI32 r2
  return (sid, port)

def readNeighbors : Nat → List Nat → Option (List NeighborInfo × List Nat)
  | 0, data => some ([], data)
  | k + 1, data => do
    let (nid, r1) ← readI32 data
    let (ab, r2) ← readU8 r1
    let (port, r3) ← readI32 r2
    let (host, r4) ← takeUntilZero r3
    let (rest, r5) ← readNeighbors k r4
    return (⟨nid, ab != 0, host, port⟩ :: rest, r5)

def deserialize_register_response (data : List Nat) : Option (List NeighborInfo) := do
  let (_, r0) ← readU8 data
  let (cnt, r1) ← readU16 r0
  let (nbrs, _) ← readNeighbors cnt r1
  return nbrs

def readRoutes : Nat → List Nat → Option (List RoutingEntry × List Nat)
  | 0, data => some ([], data)
  | k + 1, data => do
    let (sid, r1) ← readI32 data
    let (did, r2) ← readI32 r1
    let (hop, r3) ← readI32 r2
    let (dist, r4) ← readI32 r3
    let (rest, r5) ← readRoutes k r4
    return ([sid, did, hop, dist] :: rest, r5)

def deserialize_routing_update (data : List Nat) : Option (List RoutingEntry) := do
  let (_, r0) ← readU8 data
  let (cnt, r1) ← readU16 r0
  let (routes, _) ← readRoutes cnt r1
  return routes

def deserialize_keep_alive (data : List Nat) : Option Int := do
  let (hdr, _) ← readBytes 5 data
  let (_, r1) ← readU8 hdr
  let (sid, _) ← readI32 r1
  return sid

def readNbrStatus : Nat → List Nat → Option (List (Int × Bool) × List Nat)
  | 0, data => some ([], data)
  | k + 1, data => do
    let (nid, r1) ← readI32 data
    let (ab, r2) ← readU8 r1
    let (rest, r3) ← readNbrStatus k r2
    return ((nid, ab != 0) :: rest, r3)

def deserialize_topology_update (data : List Nat) : Option (Int × List (Int × Bool)) := do
  let (_, r0) ← readU8 data
  let (sid, r1) ← readI32 r0
  let (cnt, r2) ← readU16 r1
  let (nbrs, _) ← readNbrStatus cnt r2
  return (sid, nbrs)

/-! ## controller.py : routing engine -/

/-- Topology dict: switch id to adjacency list of (neighbor id, cost). -/
abbrev NetTopology := List (Int × List (Int × Nat))

/-- topo.get(u, []). -/
def adjOf (topo : NetTopology) (u : Int) : List (Int × Nat) := lookupD topo u []

/-- Dijkstra working state: dist and prev dicts (none is float(inf) resp.
    None), the visited set, and the heapq contents. -/
structure DState where
  dist : Int → Option Nat
  prev : Int → Option Int
  vis : List Int
  pq : List (Nat × Int)

/-- Lexicographic order of the heapq tuples (distance, node id). -/
def pqLe (a b : Nat × Int) : Bool :=
  decide (a.1 < b.1) || (decide (a.1 = b.1) && decide (a.2 ≤ b.2))

/-- Minimum of a nonempty priority queue under pqLe (what heappop removes;
    the queue never holds two equal tuples). -/
def pqMinAux (e : Nat × Int) : List (Nat × Int) → Nat × Int
  | [] => e
  | f :: r => pqMinAux (if pqLe e f then e else f) r

/-- The relaxation loop body: for (v, cost) in topo.get(u, []). -/
def relaxAll (d : Nat) (u : Int) : List (Int × Nat) → DState → DState
  | [], st => st
  | (v, c) :: es, st =>
    let alt := d + c
    let improved : Bool :=
      match st.dist v with
      | none => true
      | some dv => decide (alt < dv)
    if improved then
      relaxAll d u es
        { dist := fun x => if x = v then some alt else st.dist x,
          prev := fun x => if x = v then some u else st.prev x,
          vis := st.vis,
          pq := st.pq ++ [(alt, v)] }
    else relaxAll d u es st

/-- The while pq loop of _dijkstra, with fuel (proven sufficient below). -/
def dijkstraLoop (adj : Int → List (Int × Nat)) : Nat → DState → DState
  | 0, st => st
  | fuel + 1, st =>
    match st.pq with
    | [] => st
    | e :: rest =>
      let m := pqMinAux e rest
      let pq1 := (e :: rest).erase m
      if m.2 ∈ st.vis then
        dijkstraLoop adj fuel { st with pq := pq1 }
      else
        dijkstraLoop adj fuel
          (relaxAll m.1 m.2 (adj m.2) { st with vis := m.2 :: st.vis, pq := pq1 })

def dijkstraInit (src : Int) : DState :=
  { dist := fun v => if v = src then some 0 else none,
    prev := fun _ => none,
    vis := [],
    pq := [(0, src)] }

/-- Fuel bound: one initial entry plus at most one push per edge of each
    of the n possibly-visited nodes, plus one pop per entry. -/
def dijkstraFuel (topo : NetTopology) (n : Nat) : Nat :=
  1 + ((List.range n).map (fun (u : Nat) => 1 + (adjOf topo (u : Int)).length)).sum

def dijkstraFinal (src : Int) (topo : NetTopology) (n : Nat) : DState :=
  dijkstraLoop (adjOf topo) (dijkstraFuel topo n) (dijkstraInit src)

/-- The predecessor walk: node = dst; while prev[node] != src and
    prev[node] is not None: node = prev[node].  Returns some h when the loop
    ends with prev[h] = src, none when it ends on a None predecessor.
    Fuel n covers every chain over n distinct nodes (proven below). -/
def hopWalk (prev : Int → Option Int) (src : Int) : Nat → Int → Option Int
  | 0, _ => none
  | fuel + 1, node =>
    match prev node with
    | none => none
    | some p => if p = src then some node else hopWalk prev src fuel p

/-- hop[dst] of _dijkstra. -/
def hopFor (st : DState) (src : Int) (n : Nat) (dst : Int) : Int :=
  if dst = src then src
  else
    match st.dist dst with
    | none => UNREACHABLE_HOP
    | some _ =>
      match hopWalk st.prev src n dst with
      | some h => h
      | none => UNREACHABLE_HOP

/-- The routing table _compute_routing_tables builds for one source. -/
def routingTableFor (topo : NetTopology) (n : Nat) (s : Nat) : List RoutingEntry :=
  (List.range n).map fun (d : Nat) =>
    match (dijkstraFinal (s : Int) topo n).dist (d : Int) with
    | none => [(s : Int), (d : Int), UNREACHABLE_HOP, (UNREACHABLE_DISTANCE : Int)]
    | some k =>
      [(s : Int), (d : Int), hopFor (dijkstraFinal (s : Int) topo n) (s : Int) n (d : Int),
        (k : Int)]

/-- RoutingCache._compute_routing_tables. -/
def compute_routing_tables (topo : NetTopology) (n : Nat) : List (Int × List RoutingEntry) :=
  (List.range n).map fun (s : Nat) => ((s : Int), routingTableFor topo n s)

/-! ## controller.py : routing cache and driver -/

structure RoutingCache where
  last_topo : Option NetTopology
  routes_by_switch : List (Int × List RoutingEntry)
  n : Nat
deriving DecidableEq

def RoutingCache.initial : RoutingCache := ⟨none, [], 0⟩

/-- RoutingCache.update: recompute unless self._last_topo == topo (Python
    dict equality) and self._n == n. -/
def RoutingCache.update (c : RoutingCache) (topo : NetTopology) (n : Nat) :
    RoutingCache × Bool :=
  let same : Bool :=
    match c.last_topo with
    | none => false
    | some t => pyListDictEq t topo
  if same && c.n == n then (c, false)
  else ({ last_topo := some topo, routes_by_switch := compute_routing_tables topo n, n := n },
    true)

/-- RoutingCache.flat_routes. -/
def RoutingCache.flat_routes (c : RoutingCache)
    (switch_alive : Option (List (Int × Bool))) : List RoutingEntry :=
  ((c.routes_by_switch.filter fun p =>
      match switch_alive with
      | none => true
      | some a => lookupD a p.1 false).map Prod.snd).flatten

structure SwitchInfo where
  host : List Nat
  port : Int
deriving DecidableEq, Repr

abbrev Addr := List Nat × Int

inductive LogEvent where
  | registerRequest (sid : Int)
  | registerResponse (sid : Int)
  | routingUpdate (table : List RoutingEntry)
  | linkDead (a b : Int)
  | switchDead (sid : Int)
  | switchAlive (sid : Int)
deriving DecidableEq

/-- Mutable controller state shared by the receive loop and the timer. -/
structure CtrlState where
  sw : List (Int × SwitchInfo)
  switch_alive : List (Int × Bool)
  last_heard : List (Int × Nat)
  switch_neighbors : List (Int × List (Int × Bool))
  cache : RoutingCache
deriving DecidableEq

/-- build_topology: declared edges filtered by liveness of both endpoints and
    bidirectional reported agreement (reports default to true). -/
def build_topology (tmpl : NetTopology) (switch_alive : List (Int × Bool))
    (switch_neighbors : List (Int × List (Int × Bool))) : NetTopology :=
  tmpl.filterMap fun p =>
    if lookupD switch_alive p.1 false then
      some (p.1, p.2.filter fun q =>
        lookupD switch_alive q.1 false &&
        lookupD (lookupD switch_neighbors p.1 []) q.1 true &&
        lookupD (lookupD switch_neighbors q.1 []) p.1 true)
    else none

/-- build_neighbor_list; switch_alive = none is the bootstrap call (every
    declared neighbor marked alive). -/
def build_neighbor_list (topo : NetTopology) (sid : Int) (sw : List (Int × SwitchInfo))
    (switch_alive : Option (List (Int × Bool))) : List NeighborInfo :=
  (adjOf topo sid).map fun p =>
    { id := p.1,
      alive :=
        match switch_alive with
        | some a => lookupD a p.1 false
        | none => true,
      host :=
        match sw.lookup p.1 with
        | some info => info.host
        | none => LOCALHOST,
      port :=
        match sw.lookup p.1 with
        | some info => info.port
        | none => 0 }

/-- send_routing_updates: the (address, datagram) pairs actually sent. -/
def send_routing_updates (sw : List (Int × SwitchInfo))
    (routes_by_switch : List (Int × List RoutingEntry))
    (switch_alive : Option (List (Int × Bool))) : List (Addr × List Nat) :=
  routes_by_switch.filterMap fun p =>
    match sw.lookup p.1 with
    | none => none
    | some info =>
      if (match switch_alive with
          | none => true
          | some a => lookupD a p.1 false) then
        some ((info.host, info.port), serialize_routing_update p.2)
      else none

/-- The register responses sent at the end of bootstrap (switch_alive absent:
    every declared neighbor is reported alive). -/
def bootstrap_responses (sw : List (Int × SwitchInfo)) (topo : NetTopology) :
    List (Addr × List Nat) :=
  sw.map fun p =>
    ((p.2.host, p.2.port), serialize_register_response (build_neighbor_list topo p.1 sw none))

/-- recompute_and_send: rebuild the effective topology, ask the cache, and on
    a change log the flat routing update and send the per-switch tables. -/
def recompute_and_send (tmpl : NetTopology) (n : Nat) (st : CtrlState) :
    CtrlState × List LogEvent × List (Addr × List Nat) :=
  let current := build_topology tmpl st.switch_alive st.switch_neighbors
  let res := st.cache.update current n
  if res.2 then
    ({ st with cache := res.1 },
      [LogEvent.routingUpdate (res.1.flat_routes (some st.switch_alive))],
      send_routing_updates st.sw res.1.routes_by_switch (some st.switch_alive))
  else ({ st with cache := res.1 }, [], [])

/-- The TOPOLOGY_UPDATE branch of the controller main loop.  none models the
    uncaught KeyError raised by sw[sender_id] when the sender was never
    registered (the process dies). -/
def topology_update_step (tmpl : NetTopology) (n : Nat) (st : CtrlState) (addr : Addr)
    (now : Nat) (sender : Int) (nbr_status : List (Int × Bool)) :
    Option (CtrlState × List LogEvent × List (Addr × List Nat)) :=
  let lh1 := setk st.last_heard sender now
  match st.sw.lookup sender with
  | none => none
  | some _ =>
    let sw1 := setk st.sw sender ⟨addr.1, addr.2⟩
    let wasDead : Bool := !(lookupD st.switch_alive sender true)
    let alive1 := if wasDead then setk st.switch_alive sender true else st.switch_alive
    let aliveLogs := if wasDead then [LogEvent.switchAlive sender] else []
    let old_nbrs := lookupD st.switch_neighbors sender []
    let deadLogs := nbr_status.filterMap fun p =>
      if lookupD old_nbrs p.1 true && !p.2 then some (LogEvent.linkDead sender p.1) else none
    let nb1 := setk st.switch_neighbors sender (dictOfList nbr_status)
    let st1 : CtrlState :=
      { sw := sw1, switch_alive := alive1, last_heard := lh1,
        switch_neighbors := nb1, cache := st.cache }
    let r := recompute_and_send tmpl n st1
    some (r.1, aliveLogs ++ deadLogs ++ r.2.1, r.2.2)

/-- The REGISTER_REQUEST branch of the controller main loop (steady-state
    re-registration). -/
def register_request_step (tmpl : NetTopology) (n : Nat) (st : CtrlState)
    (addrHost : List Nat) (now : Nat) (sid : Int) (sport : Int) :
    CtrlState × List LogEvent × List (Addr × List Nat) :=
  let sw1 := setk st.sw sid ⟨addrHost, sport⟩
  let nbrs := build_neighbor_list tmpl sid sw1 (some st.switch_alive)
  let respMsg := serialize_register_response nbrs
  let was_dead : Bool := !(lookupD st.switch_alive sid true)
  let alive1 := setk st.switch_alive sid true
  let lh1 := setk st.last_heard sid now
  let nb1 := setk st.switch_neighbors sid
    (dictOfList ((adjOf tmpl sid).map fun p => (p.1, true)))
  let st1 : CtrlState :=
    { sw := sw1, switch_alive := alive1, last_heard := lh1,
      switch_neighbors := nb1, cache := st.cache }
  let r := recompute_and_send tmpl n st1
  let directMsg := serialize_routing_update (lookupD r.1.cache.routes_by_switch sid [])
  (r.1,
    [LogEvent.registerRequest sid, LogEvent.registerResponse sid] ++
      (if was_dead then [LogEvent.switchAlive sid] else []) ++ r.2.1,
    ((addrHost, sport), respMsg) :: r.2.2 ++ [((addrHost, sport), directMsg)])

/-- One iteration of the controller receive loop on a datagram.  none models
    an uncaught exception (struct.error on a short buffer, KeyError on an
    unknown sender): the process terminates. -/
def controller_step (tmpl : NetTopology) (n : Nat) (st : CtrlState) (addr : Addr)
    (now : Nat) (data : List Nat) :
    Option (CtrlState × List LogEvent × List (Addr × List Nat)) :=
  match readU8 data with
  | none => none
  | some (tag, _) =>
    if tag = BIN_TOPOLOGY_UPDATE then
      match deserialize_topology_update data with
      | none => none
      | some (sender, nbrs) => topology_update_step tmpl n st addr now sender nbrs
    else if tag = BIN_REGISTER_REQUEST then
      match deserialize_register_request data with
      | none => none
      | some (sid, sport) => some (register_request_step tmpl n st addr.1 now sid sport)
    else some (st, [], [])

/-! ## Specification-side predicates (graph reachability and shortest paths) -/

/-- A path of total cost k from u to w in the adjacency function. -/
inductive Reach (adj : Int → List (Int × Nat)) : Int → Int → Nat → Prop
  | refl (u : Int) : Reach adj u u 0
  | step {u v w : Int} {c k : Nat} : (v, c) ∈ adj u → Reach adj v w k → Reach adj u w (c + k)

def Reachable (adj : Int → List (Int × Nat)) (s d : Int) : Prop := ∃ k, Reach adj s d k

/-- k is the shortest-path distance from s to d. -/
def MinDist (adj : Int → List (Int × Nat)) (s d : Int) (k : Nat) : Prop :=
  Reach adj s d k ∧ ∀ j, Reach adj s d j → k ≤ j

/-- h is adjacent to s and lies on a shortest path from s to d. -/
def ShortestNextHop (adj : Int → List (Int × Nat)) (s d h : Int) : Prop :=
  ∃ c j k, (h, c) ∈ adj s ∧ Reach adj h d j ∧ MinDist adj s d k ∧ c + j = k

/-- A topology over switch ids 0..n-1 with positive integer edge costs. -/
def ValidTopo (topo : NetTopology) (n : Nat) : Prop :=
  ∀ e ∈ topo, ∀ p ∈ e.2, 0 ≤ p.1 ∧ p.1 < (n : Int) ∧ 1 ≤ p.2

instance (topo : NetTopology) (n : Nat) : Decidable (ValidTopo topo n) := by
  unfold ValidTopo
  exact inferInstance

/-- Same adjacency sets with same costs (order of keys and of adjacency
    entries is irrelevant): the structural-equality reading of the spec. -/
def sameAdjSets (a b : NetTopology) : Bool :=
  (a.all fun p =>
    match b.lookup p.1 with
    | some l => (p.2.all fun q => l.contains q) && (l.all fun q => p.2.contains q)
    | none => false) &&
  (b.all fun p => !(a.lookup p.1).isNone)

def inI32 (x : Int) : Prop := -(2 ^ 31) ≤ x ∧ x < 2 ^ 31

def HostOk (h : List Nat) : Prop := ∀ b ∈ h, b ≠ 0

instance (x : Int) : Decidable (inI32 x) := by
  unfold inI32
  exact inferInstance

instance (h : List Nat) : Decidable (HostOk h) := by
  unfold HostOk
  exact inferInstance

/-! ## Dijkstra invariants (proof infrastructure) -/

/-- Validity of an adjacency function over n nodes: every neighbor id lies in
0..n-1 and every edge cost is a positive integer. -/
def AdjValid (adj : Int → List (Int × Nat)) (n : Nat) : Prop :=
  ∀ u : Int, ∀ p ∈ adj u, (0 ≤ p.1 ∧ p.1 < (n : Int)) ∧ 1 ≤ p.2

/-- The edge (u, v, c) is relaxed: dist v ≤ dist u + c with both finite. -/
def Relaxed (dist : Int → Option Nat) (u v : Int) (c : Nat) : Prop :=
  ∃ kv ku, dist v = some kv ∧ dist u = some ku ∧ kv ≤ ku + c

/-- Invariant of the Dijkstra loop state: queue entries dominate their node's
tentative distance, tentative distances are attained by paths, visited nodes
are final and minimal, every finite unvisited node has a matching queue entry,
and predecessor pointers step back along optimal edges from visited nodes. -/
structure DInv (adj : Int → List (Int × Nat)) (src : Int) (n : Nat) (st : DState) : Prop where
  vis_valid : ∀ u ∈ st.vis, 0 ≤ u ∧ u < (n : Int)
  pq_valid : ∀ e ∈ st.pq, (0 ≤ e.2 ∧ e.2 < (n : Int)) ∧ ∃ k, st.dist e.2 = some k ∧ k ≤ e.1
  dist_sound : ∀ v k, st.dist v = some k → Reach adj src v k
  dist_src : st.dist src = some 0
  prev_src : st.prev src = none
  vis_min : ∀ u ∈ st.vis, ∃ k, st.dist u = some k ∧ MinDist adj src u k
  unvis_pq : ∀ v k, v ∉ st.vis → st.dist v = some k → (k, v) ∈ st.pq
  prev_spec : ∀ v k, v ≠ src → st.dist v = some k →
    ∃ u c ku, st.prev v = some u ∧ (v, c) ∈ adj u ∧ st.dist u = some ku ∧
      MinDist adj src u ku ∧ u ∈ st.vis ∧ ku + c = k

/-- Every edge out of a visited node is relaxed. -/
def AllRelaxed (adj : Int → List (Int × Nat)) (st : DState) : Prop :=
  ∀ u ∈ st.vis, ∀ p ∈ adj u, Relaxed st.dist u p.1 p.2

/-- Every edge out of a visited node is relaxed, except possibly edges of u0
still in the unprocessed suffix es of its adjacency list. -/
def RelaxedExcept (adj : Int → List (Int × Nat)) (u0 : Int) (es : List (Int × Nat))
    (st : DState) : Prop :=
  ∀ u ∈ st.vis, ∀ p ∈ adj u, (u = u0 ∧ p ∈ es) ∨ Relaxed st.dist u p.1 p.2

/-- Termination potential of the Dijkstra loop: queue entries still to pop plus
one visit and one push per edge for each unvisited node. -/
def dPotential (adj : Int → List (Int × Nat)) (n : Nat) (st : DState) : Nat :=
  st.pq.length +
    (((List.range n).filter fun (u : Nat) => !(st.vis.contains (u : Int))).map
      fun (u : Nat) => 1 + (adj (u : Int)).length).sum

/-- Strict comparison on optional distances (infinity compares below nothing). -/
def oLt : Option Nat → Option Nat → Bool
  | some a, some b => decide (a < b)
  | _, _ => false

/-- How many of the n node ids have a strictly smaller finite distance than v:
the measure that bounds the predecessor walk. -/
def belowCount (dist : Int → Option Nat) (n : Nat) (v : Int) : Nat :=
  ((Finset.range n).filter fun (u : Nat) => oLt (dist (u : Int)) (dist v) = true).card

/-! ## Concrete instances used in counterexamples and witnesses -/

/-- Three switches in a line 0 - 1 - 2, all costs 1. -/
def topoLine3 : NetTopology := [(0, [(1, 1)]), (1, [(0, 1), (2, 1)]), (2, [(1, 1)])]

/-- The 4-cycle 0-1, 1-2, 2-3, 3-0 with all costs 1 (spec scenario 5). -/
def topoCycle4 : NetTopology :=
  [(0, [(1, 1), (3, 1)]), (1, [(0, 1), (2, 1)]), (2, [(1, 1), (3, 1)]), (3, [(2, 1), (0, 1)])]

/-- Five switches with two equal-cost shortest paths 0-1-3-4 and 0-2-4 (both
cost 3) from 0 to 4, whose first hops are 1 and 2. -/
def topoTwoPaths : NetTopology :=
  [(0, [(1, 1), (2, 2)]), (1, [(0, 1), (3, 1)]), (2, [(0, 2), (4, 1)]),
   (3, [(1, 1), (4, 1)]), (4, [(3, 1), (2, 1)])]

/-- A star topology and the same topology with the adjacency list of switch 0
reordered: equal as adjacency sets, different as Python list values. -/
def topoStar : NetTopology := [(0, [(1, 1), (2, 1)]), (1, [(0, 1)]), (2, [(0, 1)])]

def topoStarReordered : NetTopology := [(0, [(2, 1), (1, 1)]), (1, [(0, 1)]), (2, [(0, 1)])]

/-- topoStar with its keys listed in a different order (equal Python dicts). -/
def topoStarKeyPerm : NetTopology := [(1, [(0, 1)]), (0, [(1, 1), (2, 1)]), (2, [(0, 1)])]

/-- A one-switch controller state (switch 0 registered, alive). -/
def tmplOne : NetTopology := [(0, [])]

def stOne : CtrlState :=
  { sw := [(0, ⟨LOCALHOST, 7000⟩)], switch_alive := [(0, true)], last_heard := [(0, 0)],
    switch_neighbors := [(0, [])], cache := RoutingCache.initial }

/-- A two-switch line with switch 1 currently marked dead and a cold cache. -/
def tmplTwo : NetTopology := [(0, [(1, 1)]), (1, [(0, 1)])]

def stTwo : CtrlState :=
  { sw := [(0, ⟨LOCALHOST, 7000⟩), (1, ⟨LOCALHOST, 7001⟩)],
    switch_alive := [(0, true), (1, false)], last_heard := [(0, 0), (1, 0)],
    switch_neighbors := [(0, [(1, true)]), (1, [(0, true)])], cache := RoutingCache.initial }

/-! ## Association-list (Python dict) lemmas -/

theorem lookup_map_overwrite {α β : Type} [BEq α] [LawfulBEq α]
    (l : List (α × β)) (k k' : α) (v : β) (hne : k' ≠ k) :
    (l.map (fun p => if p.1 == k then (k, v) else p)).lookup k' = l.lookup k' := by
  induction l with
  | nil => rfl
  | cons p rest ih =>
    obtain ⟨k1, v1⟩ := p
    by_cases hp : (k1 == k) = true
    · have hpk : k1 = k := eq_of_beq hp
      have h1 : (k' == k) = false := by simpa using hne
      subst hpk
      simp only [List.map_cons, if_pos hp, List.lookup_cons, h1]
      exact ih
    · simp only [List.map_cons, if_neg hp, List.lookup_cons]
      cases hk' : k' == k1
      · simp only [hk']
        exact ih
      · simp only [hk']

theorem lookup_map_overwrite_self {α β : Type} [BEq α] [LawfulBEq α]
    (l : List (α × β)) (k : α) (v : β) (h : l.any (fun p => p.1 == k) = true) :
    (l.map (fun p => if p.1 == k then (k, v) else p)).lookup k = some v := by
  induction l with
  | nil => simp at h
  | cons p rest ih =>
    obtain ⟨k1, v1⟩ := p
    by_cases hp : (k1 == k) = true
    · simp [List.map_cons, if_pos hp, List.lookup_cons]
    · simp only [List.any_cons] at h
      simp only [hp, Bool.false_or] at h
      simp only [List.map_cons, if_neg hp, List.lookup_cons]
      have hkk1 : (k == k1) = false := by
        by_contra hc
        simp only [Bool.not_eq_false, beq_iff_eq] at hc
        exact hp (by simp [hc])
      simp only [hkk1]
      exact ih h

theorem lookup_setk_self {α β : Type} [BEq α] [LawfulBEq α] (l : List (α × β)) (k : α) (v : β) :
    (setk l k v).lookup k = some v := by
  unfold setk
  split
  case isTrue h => exact lookup_map_overwrite_self l k v h
  case isFalse h =>
    have hnone : l.lookup k = none := by
      rw [List.lookup_eq_none_iff]
      intro p hp
      simp only [List.any_eq_true, not_exists, not_and] at h
      simp only [bne_iff_ne, ne_eq]
      intro hk
      exact h p hp (by simp [hk])
    simp [List.lookup_append, hnone]

theorem lookup_setk_ne {α β : Type} [BEq α] [LawfulBEq α] (l : List (α × β)) (k k' : α) (v : β)
    (hne : k' ≠ k) : (setk l k v).lookup k' = l.lookup k' := by
  unfold setk
  split
  case isTrue h => exact lookup_map_overwrite l k k' v hne
  case isFalse h =>
    rw [List.lookup_append]
    have h1 : List.lookup k' [(k, v)] = none := by
      simp [List.lookup_cons, (by simpa using hne : (k' == k) = false)]
    rw [h1]
    cases l.lookup k' <;> rfl

theorem lookupD_setk_self {α β : Type} [BEq α] [LawfulBEq α] (l : List (α × β)) (k : α) (v d : β) :
    lookupD (setk l k v) k d = v := by
  simp [lookupD, lookup_setk_self]

theorem lookupD_setk_ne {α β : Type} [BEq α] [LawfulBEq α] (l : List (α × β)) (k k' : α) (v d : β)
    (hne : k' ≠ k) : lookupD (setk l k v) k' d = lookupD l k' d := by
  simp [lookupD, lookup_setk_ne l k k' v hne]

/-! ## Codec round-trip lemmas -/

theorem readI32_packI32 (x : Int) (hx : inI32 x) (rest : List Nat) :
    readI32 (packI32 x ++ rest) = some (x, rest) := by
  obtain ⟨hlo, hhi⟩ := hx
  have h0 : (0 : Int) < 2 ^ 32 := by norm_num
  have hnn : 0 ≤ x % 2 ^ 32 := Int.emod_nonneg x (by norm_num)
  have hlt : x % 2 ^ 32 < 2 ^ 32 := Int.emod_lt_of_pos x h0
  simp only [packI32, readI32, List.cons_append, List.nil_append, Option.some.injEq,
    Prod.mk.injEq]
  refine ⟨?_, trivial⟩
  have hu : (x % 2 ^ 32).toNat / 2 ^ 24 % 256 * 2 ^ 24 + (x % 2 ^ 32).toNat / 2 ^ 16 % 256 * 2 ^ 16 +
      (x % 2 ^ 32).toNat / 2 ^ 8 % 256 * 2 ^ 8 + (x % 2 ^ 32).toNat % 256 = (x % 2 ^ 32).toNat := by
    omega
  rw [hu]
  rcases le_or_lt 0 x with hpos | hneg
  · have hmod : x % 2 ^ 32 = x := Int.emod_eq_of_lt hpos (by omega)
    rw [hmod]
    rw [if_pos (by omega)]
    omega
  · have hmod : x % 2 ^ 32 = x + 2 ^ 32 := by omega
    rw [hmod]
    rw [if_neg (by omega)]
    omega

theorem readU16_packU16 (x : Nat) (hx : x < 2 ^ 16) (rest : List Nat) :
    readU16 (packU16 x ++ rest) = some (x, rest) := by
  simp only [packU16, readU16, List.cons_append, List.nil_append, Option.some.injEq,
    Prod.mk.injEq]
  exact ⟨by omega, by trivial⟩

theorem takeUntilZero_append (host rest : List Nat) (h : ∀ b ∈ host, b ≠ 0) :
    takeUntilZero (host ++ 0 :: rest) = some (host, rest) := by
  induction host with
  | nil => simp [takeUntilZero]
  | cons b tl ih =>
    have hb : b ≠ 0 := h b (by simp)
    have htl : ∀ x ∈ tl, x ≠ 0 := fun x hx => h x (by simp [hx])
    simp only [List.cons_append, takeUntilZero, if_neg hb, List.append_eq, ih htl]

theorem readNbrStatus_roundtrip (l : List (Int × Bool)) (rest : List Nat)
    (h : ∀ p ∈ l, inI32 p.1) :
    readNbrStatus l.length
      ((l.map (fun p => packI32 p.1 ++ packU8 (if p.2 then 1 else 0))).flatten ++ rest) =
      some (l, rest) := by
  induction l with
  | nil => simp [readNbrStatus]
  | cons p tl ih =>
    obtain ⟨nid, ab⟩ := p
    have h1 : inI32 nid := h (nid, ab) (by simp)
    have htl : ∀ p ∈ tl, inI32 p.1 := fun p hp => h p (by simp [hp])
    have ihh := ih htl
    simp only [packU8] at ihh
    simp only [List.map_cons, List.flatten_cons, List.length_cons, List.append_assoc,
      readNbrStatus]
    rw [readI32_packI32 _ h1]
    cases ab <;>
      simp [packU8, readU8, Option.bind, ihh]

theorem readRoutes_roundtrip (l : List RoutingEntry) (rest : List Nat)
    (h : ∀ r ∈ l, r.length = 4 ∧ ∀ x ∈ r, inI32 x) :
    readRoutes l.length
      ((l.map (fun r =>
        packI32 (r.getD 0 0) ++ packI32 (r.getD 1 0) ++ packI32 (r.getD 2 0) ++
          packI32 (r.getD 3 0))).flatten ++ rest) = some (l, rest) := by
  induction l with
  | nil => simp [readRoutes]
  | cons r tl ih =>
    have h4 : r.length = 4 := (h r (by simp)).1
    have hx : ∀ x ∈ r, inI32 x := (h r (by simp)).2
    have htl : ∀ r ∈ tl, r.length = 4 ∧ ∀ x ∈ r, inI32 x := fun r hr => h r (by simp [hr])
    rcases r with _ | ⟨a, _ | ⟨b, _ | ⟨c, _ | ⟨d, _ | ⟨e, r⟩⟩⟩⟩⟩ <;> simp at h4
    have ha : inI32 a := hx a (by simp)
    have hb : inI32 b := hx b (by simp)
    have hc : inI32 c := hx c (by simp)
    have hd : inI32 d := hx d (by simp)
    simp only [List.map_cons, List.flatten_cons, List.length_cons, List.append_assoc,
      readRoutes, List.getD_cons_zero, List.getD_cons_succ]
    rw [readI32_packI32 _ ha]
    have ihh := ih htl
    simp only [List.getD_eq_getElem?_getD, List.append_assoc] at ihh
    simp [Option.bind, readI32_packI32 _ hb, readI32_packI32 _ hc, readI32_packI32 _ hd,
      ihh]

theorem readNeighbors_roundtrip (l : List NeighborInfo) (rest : List Nat)
    (h : ∀ nb ∈ l, inI32 nb.id ∧ inI32 nb.port ∧ HostOk nb.host) :
    readNeighbors l.length
      ((l.map (fun nbr =>
        packI32 nbr.id ++ packU8 (if nbr.alive then 1 else 0) ++ packI32 nbr.port ++
          nbr.host ++ [0])).flatten ++ rest) = some (l, rest) := by
  induction l with
  | nil => simp [readNeighbors]
  | cons nb tl ih =>
    have hid : inI32 nb.id := (h nb (by simp)).1
    have hport : inI32 nb.port := (h nb (by simp)).2.1
    have hhost : HostOk nb.host := (h nb (by simp)).2.2
    have htl : ∀ nb ∈ tl, inI32 nb.id ∧ inI32 nb.port ∧ HostOk nb.host :=
      fun nb hnb => h nb (by simp [hnb])
    obtain ⟨nid, ab, host, port⟩ := nb
    simp only at hid hport hhost
    have ihh := ih htl
    simp only [packU8, List.singleton_append, List.cons_append, List.append_assoc,
      List.nil_append] at ihh
    cases ab <;>
      simp [List.map_cons, List.flatten_cons, List.append_assoc, readNeighbors,
        readI32_packI32 _ hid, packU8, readU8, readI32_packI32 _ hport,
        takeUntilZero_append _ _ hhost, ihh]

theorem packI32_length (x : Int) : (packI32 x).length = 4 := by
  simp [packI32]

theorem readI32_packI32_nil (x : Int) (hx : inI32 x) :
    readI32 (packI32 x) = some (x, []) := by
  simpa using readI32_packI32 x hx []

theorem readU8_cons (b : Nat) (rest : List Nat) : readU8 (b :: rest) = some (b, rest) := rfl

theorem roundtrip_register_request (sid port : Int) (h1 : inI32 sid) (h2 : inI32 port) :
    deserialize_register_request (serialize_register_request sid port) = some (sid, port) := by
  have hlen : (serialize_register_request sid port).length = 9 := by
    simp [serialize_register_request, packU8, packI32_length]
  simp only [deserialize_register_request, readBytes, hlen]
  rw [if_pos (by omega), List.take_of_length_le (le_of_eq hlen)]
  simp only [serialize_register_request, packU8, List.singleton_append, List.cons_append, List.nil_append, readU8_cons,
    Option.bind_eq_bind, Option.some_bind, List.append_assoc]
  rw [readI32_packI32 _ h1]
  simp only [Option.some_bind]
  rw [readI32_packI32_nil _ h2]
  rfl

theorem roundtrip_keep_alive (sid : Int) (h1 : inI32 sid) :
    deserialize_keep_alive (serialize_keep_alive sid) = some sid := by
  have hlen : (serialize_keep_alive sid).length = 5 := by
    simp [serialize_keep_alive, packU8, packI32_length]
  simp only [deserialize_keep_alive, readBytes, hlen]
  rw [if_pos (by omega), List.take_of_length_le (le_of_eq hlen)]
  simp only [serialize_keep_alive, packU8, List.singleton_append, List.cons_append, List.nil_append, readU8_cons,
    Option.bind_eq_bind, Option.some_bind]
  rw [readI32_packI32_nil _ h1]
  rfl

theorem roundtrip_register_response (nbrs : List NeighborInfo) (hcnt : nbrs.length < 2 ^ 16)
    (h : ∀ nb ∈ nbrs, inI32 nb.id ∧ inI32 nb.port ∧ HostOk nb.host) :
    deserialize_register_response (serialize_register_response nbrs) = some nbrs := by
  have hrt := readNeighbors_roundtrip nbrs [] h
  rw [List.append_nil] at hrt
  simp only [packU8] at hrt
  simp only [deserialize_register_response, serialize_register_response, packU8,
    List.singleton_append, List.cons_append, List.nil_append, readU8_cons, Option.bind_eq_bind, Option.some_bind]
  rw [readU16_packU16 _ hcnt]
  simp only [Option.some_bind]
  rw [hrt]
  rfl

theorem roundtrip_routing_update (routes : List RoutingEntry) (hcnt : routes.length < 2 ^ 16)
    (h : ∀ r ∈ routes, r.length = 4 ∧ ∀ x ∈ r, inI32 x) :
    deserialize_routing_update (serialize_routing_update routes) = some routes := by
  have hrt := readRoutes_roundtrip routes [] h
  rw [List.append_nil] at hrt
  simp only [deserialize_routing_update, serialize_routing_update, packU8,
    List.singleton_append, List.cons_append, List.nil_append, readU8_cons, Option.bind_eq_bind, Option.some_bind]
  rw [readU16_packU16 _ hcnt]
  simp only [Option.some_bind]
  rw [hrt]
  rfl

theorem roundtrip_topology_update (sid : Int) (nbrs : List (Int × Bool)) (h1 : inI32 sid)
    (hcnt : nbrs.length < 2 ^ 16) (h : ∀ p ∈ nbrs, inI32 p.1) :
    deserialize_topology_update (serialize_topology_update sid nbrs) = some (sid, nbrs) := by
  have hrt := readNbrStatus_roundtrip nbrs [] h
  rw [List.append_nil] at hrt
  simp only [packU8] at hrt
  simp only [deserialize_topology_update, serialize_topology_update, packU8,
    List.singleton_append, List.cons_append, List.nil_append, readU8_cons, Option.bind_eq_bind, Option.some_bind, List.append_assoc]
  rw [readI32_packI32 _ h1]
  simp only [Option.some_bind]
  rw [readU16_packU16 _ hcnt]
  simp only [Option.some_bind]
  rw [hrt]
  rfl

/-- C3: For each of the five message kinds (REGISTER_REQUEST, REGISTER_RESPONSE,
ROUTING_UPDATE, KEEP_ALIVE, TOPOLOGY_UPDATE), decoding an encoded message yields
a value equal to the original, for every input whose record count fits in an
unsigned 16-bit field, whose integer fields fit in signed 32 bits, and whose
host strings are NUL-free UTF-8 (modelled as NUL-free byte strings). -/
theorem c3_codec_round_trip :
    (∀ sid port : Int, inI32 sid → inI32 port →
      deserialize_register_request (serialize_register_request sid port) = some (sid, port)) ∧
    (∀ nbrs : List NeighborInfo, nbrs.length < 2 ^ 16 →
      (∀ nb ∈ nbrs, inI32 nb.id ∧ inI32 nb.port ∧ HostOk nb.host) →
      deserialize_register_response (serialize_register_response nbrs) = some nbrs) ∧
    (∀ routes : List RoutingEntry, routes.length < 2 ^ 16 →
      (∀ r ∈ routes, r.length = 4 ∧ ∀ x ∈ r, inI32 x) →
      deserialize_routing_update (serialize_routing_update routes) = some routes) ∧
    (∀ sid : Int, inI32 sid →
      deserialize_keep_alive (serialize_keep_alive sid) = some sid) ∧
    (∀ (sid : Int) (nbrs : List (Int × Bool)), inI32 sid → nbrs.length < 2 ^ 16 →
      (∀ p ∈ nbrs, inI32 p.1) →
      deserialize_topology_update (serialize_topology_update sid nbrs) = some (sid, nbrs)) := by
  exact ⟨roundtrip_register_request,
    roundtrip_register_response,
    roundtrip_routing_update,
    roundtrip_keep_alive,
    roundtrip_topology_update⟩

/-- Witness for C3 at concrete messages of every kind. -/
theorem c3_codec_round_trip_witness :
    deserialize_register_request (serialize_register_request 7 9000) = some (7, 9000) ∧
    deserialize_register_response
      (serialize_register_response [⟨1, true, [104, 105], 4242⟩]) =
        some [⟨1, true, [104, 105], 4242⟩] ∧
    deserialize_routing_update (serialize_routing_update [[0, 1, 1, 1], [0, 2, -1, 9999]]) =
      some [[0, 1, 1, 1], [0, 2, -1, 9999]] ∧
    deserialize_keep_alive (serialize_keep_alive 3) = some 3 ∧
    deserialize_topology_update (serialize_topology_update 2 [(0, true), (5, false)]) =
      some (2, [(0, true), (5, false)]) := by
  refine ⟨c3_codec_round_trip.1 7 9000 (by constructor <;> norm_num) (by constructor <;> norm_num),
    c3_codec_round_trip.2.1 [⟨1, true, [104, 105], 4242⟩] (by norm_num)
      (by intro nb hnb; simp at hnb; subst hnb; refine ⟨⟨by norm_num, by norm_num⟩, ⟨by norm_num, by norm_num⟩, ?_⟩; intro b hb; simp at hb; omega),
    c3_codec_round_trip.2.2.1 [[0, 1, 1, 1], [0, 2, -1, 9999]] (by norm_num) (by decide),
    c3_codec_round_trip.2.2.2.1 3 (by constructor <;> norm_num),
    c3_codec_round_trip.2.2.2.2 2 [(0, true), (5, false)] (by constructor <;> norm_num)
      (by norm_num) (by decide)⟩

/-! ## build_topology lemmas (claim C2) -/

theorem build_topology_lookup_dead (tmpl : NetTopology) (alive : List (Int × Bool))
    (rep : List (Int × List (Int × Bool))) (a : Int)
    (ha : lookupD alive a false = false) :
    (build_topology tmpl alive rep).lookup a = none := by
  induction tmpl with
  | nil => rfl
  | cons p rest ih =>
    obtain ⟨k, l⟩ := p
    by_cases hk : k = a
    · subst hk
      simp only [build_topology, List.filterMap_cons, ha, Bool.false_eq_true, if_false]
      exact ih
    · simp only [build_topology, List.filterMap_cons]
      by_cases halive : lookupD alive k false
      · simp only [halive, if_true, List.lookup_cons,
          (by simpa using (Ne.symm hk) : (a == k) = false)]
        exact ih
      · simp only [Bool.not_eq_true] at halive
        simp only [halive, Bool.false_eq_true, if_false]
        exact ih

theorem build_topology_lookup (tmpl : NetTopology) (alive : List (Int × Bool))
    (rep : List (Int × List (Int × Bool))) (a : Int) :
    (build_topology tmpl alive rep).lookup a =
      match tmpl.lookup a with
      | none => none
      | some l =>
        if lookupD alive a false then
          some (l.filter fun q =>
            lookupD alive q.1 false &&
            lookupD (lookupD rep a []) q.1 true &&
            lookupD (lookupD rep q.1 []) a true)
        else none := by
  induction tmpl with
  | nil => rfl
  | cons p rest ih =>
    obtain ⟨k, l⟩ := p
    by_cases hk : k = a
    · subst hk
      simp only [List.lookup_cons_self]
      by_cases halive : lookupD alive k false
      · simp only [build_topology, List.filterMap_cons, halive, if_true,
          List.lookup_cons_self]
      · simp only [Bool.not_eq_true] at halive
        simp only [build_topology, List.filterMap_cons, halive, Bool.false_eq_true, if_false]
        have := build_topology_lookup_dead rest alive rep k halive
        simp only [build_topology] at this
        simp [this, halive]
    · have hbeq : (a == k) = false := by simpa using (Ne.symm hk)
      simp only [List.lookup_cons, hbeq]
      by_cases halive : lookupD alive k false
      · simp only [build_topology, List.filterMap_cons, halive, if_true,
          List.lookup_cons, hbeq]
        exact ih
      · simp only [Bool.not_eq_true] at halive
        simp only [build_topology, List.filterMap_cons, halive, Bool.false_eq_true, if_false]
        exact ih

theorem mem_adjOf_build (tmpl : NetTopology) (alive : List (Int × Bool))
    (rep : List (Int × List (Int × Bool))) (a b : Int) (c : Nat) :
    (b, c) ∈ adjOf (build_topology tmpl alive rep) a ↔
      ((b, c) ∈ adjOf tmpl a ∧ lookupD alive a false = true ∧ lookupD alive b false = true ∧
        lookupD (lookupD rep a []) b true = true ∧ lookupD (lookupD rep b []) a true = true) := by
  have hb := build_topology_lookup tmpl alive rep a
  cases htm : List.lookup a tmpl with
  | none =>
    simp only [htm] at hb
    have hadj : adjOf (build_topology tmpl alive rep) a = [] := by
      simp [adjOf, lookupD, hb]
    have hadjt : adjOf tmpl a = [] := by simp [adjOf, lookupD, htm]
    simp [hadj, hadjt]
  | some l =>
    simp only [htm] at hb
    have hadjt : adjOf tmpl a = l := by simp [adjOf, lookupD, htm]
    by_cases halive : lookupD alive a false = true
    · rw [if_pos halive] at hb
      have hadj : adjOf (build_topology tmpl alive rep) a =
          l.filter (fun q =>
            lookupD alive q.1 false &&
            lookupD (lookupD rep a []) q.1 true &&
            lookupD (lookupD rep q.1 []) a true) := by
        simp [adjOf, lookupD, hb]
      rw [hadj, hadjt]
      simp only [List.mem_filter, Bool.and_eq_true]
      constructor
      · rintro ⟨hmem, ⟨hba, hrab⟩, hrba⟩
        exact ⟨hmem, halive, hba, hrab, hrba⟩
      · rintro ⟨hmem, _, hba, hrab, hrba⟩
        exact ⟨hmem, ⟨hba, hrab⟩, hrba⟩
    · have halive2 : lookupD alive a false = false := by
        simpa using halive
      rw [if_neg (by simp [halive2])] at hb
      have hadj : adjOf (build_topology tmpl alive rep) a = [] := by
        simp [adjOf, lookupD, hb]
      simp [hadj, halive2]

/-- C2: For every declared edge (a, b, cost), every switch-alive map, and every
reported-neighbor-vector map, the derived effective topology includes the edge
iff alive[a] and alive[b] and reported[a][b] and reported[b][a], where a missing
report entry defaults to true; in particular, if reported[a][b] = true but
reported[b][a] = false, the edge (a, b) appears in neither adjacency list of
the effective topology. -/
theorem c2_effective_topology_rule (tmpl : NetTopology) (alive : List (Int × Bool))
    (rep : List (Int × List (Int × Bool))) (a b : Int) (c : Nat) :
    ((b, c) ∈ adjOf (build_topology tmpl alive rep) a ↔
      ((b, c) ∈ adjOf tmpl a ∧ lookupD alive a false = true ∧ lookupD alive b false = true ∧
        lookupD (lookupD rep a []) b true = true ∧ lookupD (lookupD rep b []) a true = true)) ∧
    (lookupD (lookupD rep a []) b true = true → lookupD (lookupD rep b []) a true = false →
      ((b, c) ∉ adjOf (build_topology tmpl alive rep) a ∧
        ∀ c2 : Nat, (a, c2) ∉ adjOf (build_topology tmpl alive rep) b)) := by
  refine ⟨mem_adjOf_build tmpl alive rep a b c, fun h1 h2 => ⟨?_, ?_⟩⟩
  · intro hmem
    have := (mem_adjOf_build tmpl alive rep a b c).mp hmem
    rw [h2] at this
    simp at this
  · intro c2 hmem
    have := (mem_adjOf_build tmpl alive rep b a c2).mp hmem
    rw [h2] at this
    simp at this

/-- Witness for C2: a 2-switch topology where 0 reports 1 alive but 1 reports
0 dead; the edge is present in neither adjacency list. -/
theorem c2_effective_topology_rule_witness :
    (1, 5) ∉ adjOf (build_topology [((0 : Int), [((1 : Int), 5)]), (1, [(0, 5)])]
      [(0, true), (1, true)] [(0, [(1, true)]), (1, [(0, false)])]) 0 ∧
    ∀ c2 : Nat, (0, c2) ∉ adjOf (build_topology [((0 : Int), [((1 : Int), 5)]), (1, [(0, 5)])]
      [(0, true), (1, true)] [(0, [(1, true)]), (1, [(0, false)])]) 1 :=
  (c2_effective_topology_rule [((0 : Int), [((1 : Int), 5)]), (1, [(0, 5)])]
    [(0, true), (1, true)] [(0, [(1, true)]), (1, [(0, false)])] 0 1 5).2
    (by decide) (by decide)

/-! ## build_neighbor_list (claim C10) -/

/-- C10: The REGISTER_RESPONSE built for a steady-state re-registration marks
each declared neighbor alive exactly when the Controller switch-alive map
currently marks that neighbor alive, and uses host 127.0.0.1 and port 0 for any
declared neighbor with no registration record; whereas the REGISTER_RESPONSE
sent at bootstrap marks every declared neighbor alive unconditionally. -/
theorem c10_register_response_neighbor_liveness :
    (∀ (topo : NetTopology) (sid : Int) (sw : List (Int × SwitchInfo))
        (amap : List (Int × Bool)),
      ∀ nb ∈ build_neighbor_list topo sid sw (some amap),
        nb.alive = lookupD amap nb.id false ∧
        (sw.lookup nb.id = none → nb.host = LOCALHOST ∧ nb.port = 0)) ∧
    (∀ (topo : NetTopology) (sid : Int) (sw : List (Int × SwitchInfo)),
      ∀ nb ∈ build_neighbor_list topo sid sw none, nb.alive = true) ∧
    (∀ (topo : NetTopology) (sid : Int) (sw : List (Int × SwitchInfo))
        (amap : Option (List (Int × Bool))),
      ∀ p ∈ adjOf topo sid, ∃ nb ∈ build_neighbor_list topo sid sw amap, nb.id = p.1) ∧
    (∀ (tmpl : NetTopology) (n : Nat) (st : CtrlState) (addrHost : List Nat) (now : Nat)
        (sid sport : Int),
      (register_request_step tmpl n st addrHost now sid sport).2.2.head? =
        some ((addrHost, sport), serialize_register_response
          (build_neighbor_list tmpl sid (setk st.sw sid ⟨addrHost, sport⟩)
            (some st.switch_alive)))) ∧
    (∀ (sw : List (Int × SwitchInfo)) (topo : NetTopology), ∀ m ∈ bootstrap_responses sw topo,
      ∃ sid, m.2 = serialize_register_response (build_neighbor_list topo sid sw none)) := by
  refine ⟨?_, ?_, ?_, ?_, ?_⟩
  · intro topo sid sw amap nb hnb
    simp only [build_neighbor_list, List.mem_map] at hnb
    obtain ⟨p, hp, rfl⟩ := hnb
    refine ⟨rfl, fun hnone => ?_⟩
    simp only at hnone ⊢
    simp [hnone]
  · intro topo sid sw nb hnb
    simp only [build_neighbor_list, List.mem_map] at hnb
    obtain ⟨p, hp, rfl⟩ := hnb
    rfl
  · intro topo sid sw amap p hp
    exact ⟨_, List.mem_map_of_mem _ hp, rfl⟩
  · intro tmpl n st addrHost now sid sport
    rfl
  · intro sw topo m hm
    simp only [bootstrap_responses, List.mem_map] at hm
    obtain ⟨p, hp, rfl⟩ := hm
    exact ⟨p.1, rfl⟩

/-- Witness for C10 on a concrete 2-switch topology with one dead and one
unregistered neighbor. -/
theorem c10_register_response_neighbor_liveness_witness :
    (∀ nb ∈ build_neighbor_list [((0 : Int), [((1 : Int), 1), (2, 1)])] 0
        [(0, SwitchInfo.mk LOCALHOST 7000), (1, SwitchInfo.mk LOCALHOST 7001)]
        (some [(0, true), (1, false)]),
      nb.alive = lookupD [((0 : Int), true), (1, false)] nb.id false ∧
      (List.lookup nb.id [(0, SwitchInfo.mk LOCALHOST 7000), (1, SwitchInfo.mk LOCALHOST 7001)] = none →
        nb.host = LOCALHOST ∧ nb.port = 0)) ∧
    (∀ nb ∈ build_neighbor_list [((0 : Int), [((1 : Int), 1), (2, 1)])] 0
        [(0, SwitchInfo.mk LOCALHOST 7000), (1, SwitchInfo.mk LOCALHOST 7001)] none,
      nb.alive = true) :=
  ⟨c10_register_response_neighbor_liveness.1 [((0 : Int), [((1 : Int), 1), (2, 1)])] 0
      [(0, SwitchInfo.mk LOCALHOST 7000), (1, SwitchInfo.mk LOCALHOST 7001)]
      [(0, true), (1, false)],
    c10_register_response_neighbor_liveness.2.1 [((0 : Int), [((1 : Int), 1), (2, 1)])] 0
      [(0, SwitchInfo.mk LOCALHOST 7000), (1, SwitchInfo.mk LOCALHOST 7001)]⟩

/-! ## Routing cache equality (claim C5) -/

theorem lookup_of_mem_of_nodup_keys {β : Type} [DecidableEq β] (l : List (Int × β))
    (hnd : (l.map Prod.fst).Nodup) (k : Int) (v : β) (hm : (k, v) ∈ l) :
    l.lookup k = some v := by
  induction l with
  | nil => simp at hm
  | cons p rest ih =>
    obtain ⟨k1, v1⟩ := p
    simp only [List.map_cons, List.nodup_cons] at hnd
    rcases List.mem_cons.mp hm with heq | hmem
    · cases heq
      simp [List.lookup_cons_self]
    · have hne : k ≠ k1 := by
        rintro rfl
        exact hnd.1 (List.mem_map_of_mem Prod.fst hmem)
      simp only [List.lookup_cons, (by simpa using hne : (k == k1) = false)]
      exact ih hnd.2 hmem

theorem pyListDictEq_refl {β : Type} [DecidableEq β] (l : List (Int × β))
    (hnd : (l.map Prod.fst).Nodup) : pyListDictEq l l = true := by
  simp only [pyListDictEq, Bool.and_eq_true, List.all_eq_true, decide_eq_true_eq]
  exact ⟨fun p hp => lookup_of_mem_of_nodup_keys l hnd p.1 p.2 hp,
    fun p hp => lookup_of_mem_of_nodup_keys l hnd p.1 p.2 hp⟩

theorem build_topology_keys_sublist (tmpl : NetTopology) (alive : List (Int × Bool))
    (rep : List (Int × List (Int × Bool))) :
    ((build_topology tmpl alive rep).map Prod.fst).Sublist (tmpl.map Prod.fst) := by
  induction tmpl with
  | nil => simp [build_topology]
  | cons p rest ih =>
    simp only [build_topology, List.filterMap_cons]
    by_cases halive : lookupD alive p.1 false = true
    · simp only [halive, if_true, List.map_cons]
      exact List.Sublist.cons₂ _ (by simpa [build_topology] using ih)
    · simp only [(by simpa using halive : lookupD alive p.1 false = false),
        Bool.false_eq_true, if_false, List.map_cons]
      exact List.Sublist.cons _ (by simpa [build_topology] using ih)

theorem build_topology_keys_nodup (tmpl : NetTopology) (alive : List (Int × Bool))
    (rep : List (Int × List (Int × Bool))) (hnd : (tmpl.map Prod.fst).Nodup) :
    ((build_topology tmpl alive rep).map Prod.fst).Nodup :=
  hnd.sublist (build_topology_keys_sublist tmpl alive rep)

theorem update_snd_false_iff (c : RoutingCache) (topo : NetTopology) (n : Nat) :
    (c.update topo n).2 = false ↔
      ((match c.last_topo with
        | none => false
        | some t => pyListDictEq t topo) && c.n == n) = true := by
  unfold RoutingCache.update
  by_cases h : ((match c.last_topo with
      | none => false
      | some t => pyListDictEq t topo) && c.n == n) = true
  · simp [h]
  · simp [h]

theorem update_fst_unchanged (c : RoutingCache) (topo : NetTopology) (n : Nat)
    (h : (c.update topo n).2 = false) : (c.update topo n).1 = c := by
  unfold RoutingCache.update at h ⊢
  by_cases hc : ((match c.last_topo with
      | none => false
      | some t => pyListDictEq t topo) && c.n == n) = true
  · simp [hc]
  · simp [hc] at h

theorem update_fst_changed (c : RoutingCache) (topo : NetTopology) (n : Nat)
    (h : (c.update topo n).2 = true) :
    (c.update topo n).1 =
      { last_topo := some topo, routes_by_switch := compute_routing_tables topo n, n := n } := by
  unfold RoutingCache.update at h ⊢
  by_cases hc : ((match c.last_topo with
      | none => false
      | some t => pyListDictEq t topo) && c.n == n) = true
  · simp [hc] at h
  · simp [hc]

theorem recompute_fst (tmpl : NetTopology) (n : Nat) (st : CtrlState) :
    (recompute_and_send tmpl n st).1 =
      { st with cache :=
          (st.cache.update (build_topology tmpl st.switch_alive st.switch_neighbors) n).1 } := by
  by_cases h : (st.cache.update (build_topology tmpl st.switch_alive st.switch_neighbors) n).2 = true
  · simp [recompute_and_send, h]
  · simp [recompute_and_send, h]

theorem recompute_no_change (tmpl : NetTopology) (n : Nat) (st : CtrlState)
    (h : (st.cache.update (build_topology tmpl st.switch_alive st.switch_neighbors) n).2 = false) :
    (recompute_and_send tmpl n st).2.1 = [] ∧ (recompute_and_send tmpl n st).2.2 = [] := by
  simp [recompute_and_send, h]

/-- Counterexample to C5 as stated: two effective topologies with the same
adjacency sets and costs but a different order inside one adjacency list; the
cache reports a change (update returns true) although the claim requires no
change to be reported. -/
theorem c5_counterexample :
    sameAdjSets topoStar topoStarReordered = true ∧
    ((RoutingCache.initial.update topoStar 3).1.update topoStarReordered 3).2 = true := by
  exact ⟨by decide, by decide⟩

/-- C5 amended: equality of effective topologies for the cache is Python dict
equality: the same key set (in any key order) with per-key adjacency lists that
are equal as sequences (order inside each adjacency list matters).  Under that
equality, and with the same N, update reports no change and the driver emits no
Routing Update log entry and sends no routing datagrams; hence two consecutive
recomputes with unchanged alive and reported-neighbor inputs produce at most
one Routing Update log entry. -/
theorem c5_cache_no_change_suppression :
    (∀ (c : RoutingCache) (t t2 : NetTopology) (n : Nat),
      c.last_topo = some t → pyListDictEq t t2 = true → c.n = n →
      (c.update t2 n).2 = false ∧ (c.update t2 n).1 = c) ∧
    (∀ (tmpl : NetTopology) (n : Nat) (st : CtrlState) (t : NetTopology),
      st.cache.last_topo = some t →
      pyListDictEq t (build_topology tmpl st.switch_alive st.switch_neighbors) = true →
      st.cache.n = n →
      (recompute_and_send tmpl n st).2.1 = [] ∧ (recompute_and_send tmpl n st).2.2 = []) ∧
    (∀ (tmpl : NetTopology) (n : Nat) (st : CtrlState), (tmpl.map Prod.fst).Nodup →
      (recompute_and_send tmpl n (recompute_and_send tmpl n st).1).2.1 = [] ∧
      (recompute_and_send tmpl n (recompute_and_send tmpl n st).1).2.2 = []) := by
  have hpart1 : ∀ (c : RoutingCache) (t t2 : NetTopology) (n : Nat),
      c.last_topo = some t → pyListDictEq t t2 = true → c.n = n →
      (c.update t2 n).2 = false ∧ (c.update t2 n).1 = c := by
    intro c t t2 n hlast heq hn
    have hcond : ((match c.last_topo with
        | none => false
        | some t => pyListDictEq t t2) && c.n == n) = true := by
      rw [hlast]
      simp [heq, hn]
    have h2 : (c.update t2 n).2 = false := (update_snd_false_iff c t2 n).mpr hcond
    exact ⟨h2, update_fst_unchanged c t2 n h2⟩
  have hpart2 : ∀ (tmpl : NetTopology) (n : Nat) (st : CtrlState) (t : NetTopology),
      st.cache.last_topo = some t →
      pyListDictEq t (build_topology tmpl st.switch_alive st.switch_neighbors) = true →
      st.cache.n = n →
      (recompute_and_send tmpl n st).2.1 = [] ∧ (recompute_and_send tmpl n st).2.2 = [] := by
    intro tmpl n st t hlast heq hn
    exact recompute_no_change tmpl n st
      (hpart1 st.cache t (build_topology tmpl st.switch_alive st.switch_neighbors) n
        hlast heq hn).1
  refine ⟨hpart1, hpart2, ?_⟩
  intro tmpl n st hnd
  have hst1 := recompute_fst tmpl n st
  set current := build_topology tmpl st.switch_alive st.switch_neighbors with hcur
  have halive1 : (recompute_and_send tmpl n st).1.switch_alive = st.switch_alive := by
    rw [hst1]
  have hnbrs1 : (recompute_and_send tmpl n st).1.switch_neighbors = st.switch_neighbors := by
    rw [hst1]
  have hcur1 : build_topology tmpl (recompute_and_send tmpl n st).1.switch_alive
      (recompute_and_send tmpl n st).1.switch_neighbors = current := by
    rw [halive1, hnbrs1]
  by_cases hch : (st.cache.update current n).2 = true
  · have hc1 : (recompute_and_send tmpl n st).1.cache =
        { last_topo := some current, routes_by_switch := compute_routing_tables current n,
          n := n } := by
      rw [hst1]
      exact update_fst_changed st.cache current n hch
    apply hpart2 tmpl n (recompute_and_send tmpl n st).1 current
    · rw [hc1]
    · rw [hcur1]
      exact pyListDictEq_refl current (build_topology_keys_nodup tmpl _ _ hnd)
    · rw [hc1]
  · have hch2 : (st.cache.update current n).2 = false := by
      simpa using hch
    have hc1 : (recompute_and_send tmpl n st).1.cache = st.cache := by
      rw [hst1]
      simp [update_fst_unchanged st.cache current n hch2]
    have hcond := (update_snd_false_iff st.cache current n).mp hch2
    refine recompute_no_change tmpl n (recompute_and_send tmpl n st).1 ?_
    rw [hcur1, hc1]
    exact (update_snd_false_iff st.cache current n).mpr hcond

/-- Witness for the amended C5: a key-permuted but value-identical topology is
treated as unchanged, and a second recompute after a first one is silent. -/
theorem c5_cache_no_change_suppression_witness :
    ((RoutingCache.mk (some topoStar) [] 3).update topoStarKeyPerm 3).2 = false ∧
    (recompute_and_send tmplTwo 2 (recompute_and_send tmplTwo 2 stTwo).1).2.1 = [] := by
  refine ⟨(c5_cache_no_change_suppression.1 (RoutingCache.mk (some topoStar) [] 3)
      topoStar topoStarKeyPerm 3 rfl (by decide) rfl).1,
    (c5_cache_no_change_suppression.2.2 tmplTwo 2 stTwo (by decide)).1⟩

/-! ## Malformed datagrams and unknown senders (claims C7, C8) -/

/-- Counterexample to C7 as stated: a truncated TOPOLOGY_UPDATE datagram (tag 5
followed by only three bytes) makes decoding fail, and the controller receive
loop installs no handler, so the step is none (the uncaught struct.error
terminates the process) instead of the datagram being silently dropped with the
process continuing. -/
theorem c7_counterexample :
    deserialize_topology_update [5, 0, 0, 0] = none ∧
    controller_step tmplOne 1 stOne (LOCALHOST, 5555) 3 [5, 0, 0, 0] = none := by
  exact ⟨by decide, by rfl⟩

theorem deserialize_register_request_ignores_tag (b : Nat) (sid port : Int)
    (h1 : inI32 sid) (h2 : inI32 port) :
    deserialize_register_request (b :: packI32 sid ++ packI32 port) = some (sid, port) := by
  have hlen : (b :: packI32 sid ++ packI32 port).length = 9 := by
    simp [packI32_length]
  simp only [deserialize_register_request, readBytes, hlen]
  rw [if_pos (by omega), List.take_of_length_le (le_of_eq hlen)]
  simp only [List.cons_append, readU8_cons, Option.bind_eq_bind, Option.some_bind]
  rw [readI32_packI32 _ h1]
  simp only [Option.some_bind]
  rw [readI32_packI32_nil _ h2]
  rfl

/-- C7 amended: a datagram whose type tag is neither TOPOLOGY_UPDATE nor
REGISTER_REQUEST is silently ignored and the process continues; but a
truncated or empty datagram makes decoding fail with an uncaught error and the
process terminates (there is no MalformedMessage handler), and the decoders
never validate the type tag themselves (a REGISTER_REQUEST body decodes under
any tag byte). -/
theorem c7_malformed_datagram_handling :
    (∀ (tmpl : NetTopology) (n : Nat) (st : CtrlState) (addr : Addr) (now : Nat)
        (data : List Nat),
      data.head? = some BIN_TOPOLOGY_UPDATE → deserialize_topology_update data = none →
      controller_step tmpl n st addr now data = none) ∧
    (∀ (tmpl : NetTopology) (n : Nat) (st : CtrlState) (addr : Addr) (now : Nat)
        (data : List Nat),
      data.head? = some BIN_REGISTER_REQUEST → deserialize_register_request data = none →
      controller_step tmpl n st addr now data = none) ∧
    (∀ (tmpl : NetTopology) (n : Nat) (st : CtrlState) (addr : Addr) (now : Nat)
        (b : Nat) (data : List Nat),
      b ≠ BIN_TOPOLOGY_UPDATE → b ≠ BIN_REGISTER_REQUEST →
      controller_step tmpl n st addr now (b :: data) = some (st, [], [])) ∧
    (∀ (tmpl : NetTopology) (n : Nat) (st : CtrlState) (addr : Addr) (now : Nat),
      controller_step tmpl n st addr now [] = none) ∧
    (∀ (b : Nat) (sid port : Int), inI32 sid → inI32 port →
      deserialize_register_request (b :: packI32 sid ++ packI32 port) = some (sid, port)) := by
  refine ⟨?_, ?_, ?_, ?_, deserialize_register_request_ignores_tag⟩
  · intro tmpl n st addr now data hhead hde
    cases data with
    | nil => simp at hhead
    | cons b rest =>
      simp only [List.head?_cons, Option.some.injEq] at hhead
      subst hhead
      simp [controller_step, readU8_cons, hde]
  · intro tmpl n st addr now data hhead hde
    cases data with
    | nil => simp at hhead
    | cons b rest =>
      simp only [List.head?_cons, Option.some.injEq] at hhead
      subst hhead
      simp only [BIN_REGISTER_REQUEST] at hde
      simp [controller_step, readU8_cons, hde, BIN_REGISTER_REQUEST, BIN_TOPOLOGY_UPDATE]
  · intro tmpl n st addr now b data h5 h1
    simp [controller_step, readU8_cons, h5, h1]
  · intro tmpl n st addr now
    rfl

/-- Witness for the amended C7 at concrete datagrams. -/
theorem c7_malformed_datagram_handling_witness :
    controller_step tmplOne 1 stOne (LOCALHOST, 5555) 3 [5, 0, 0] = none ∧
    controller_step tmplOne 1 stOne (LOCALHOST, 5555) 3 [1, 0, 0] = none ∧
    controller_step tmplOne 1 stOne (LOCALHOST, 5555) 3 [9, 1, 2, 3] = some (stOne, [], []) ∧
    controller_step tmplOne 1 stOne (LOCALHOST, 5555) 3 [] = none ∧
    deserialize_register_request (2 :: packI32 7 ++ packI32 9000) = some (7, 9000) := by
  refine ⟨c7_malformed_datagram_handling.1 tmplOne 1 stOne (LOCALHOST, 5555) 3 [5, 0, 0]
      (by decide) (by decide),
    c7_malformed_datagram_handling.2.1 tmplOne 1 stOne (LOCALHOST, 5555) 3 [1, 0, 0]
      (by decide) (by decide),
    c7_malformed_datagram_handling.2.2.1 tmplOne 1 stOne (LOCALHOST, 5555) 3 9 [1, 2, 3]
      (by decide) (by decide),
    c7_malformed_datagram_handling.2.2.2.1 tmplOne 1 stOne (LOCALHOST, 5555) 3,
    c7_malformed_datagram_handling.2.2.2.2 2 7 9000 (by decide) (by decide)⟩

/-- Counterexample to C8 as stated: a well-formed TOPOLOGY_UPDATE from the
never-registered switch id 7 does not leave the process running with updated
state; the handler hits an uncaught KeyError on the registration table
(sw[sender_id]) and the step is none (the process terminates). -/
theorem c8_counterexample :
    controller_step tmplOne 1 stOne (LOCALHOST, 5555) 3 (serialize_topology_update 7 []) =
      none := by
  rfl

/-- C8 amended: a TOPOLOGY_UPDATE from a sender id with no registration record
raises an uncaught KeyError (the step is none and the process terminates); from
any registered sender id - even one with no declared edges - the state is
updated (last-heard, registered address, reported-neighbor vector) with no
special log for the sender. -/
theorem c8_unknown_sender_behavior :
    (∀ (tmpl : NetTopology) (n : Nat) (st : CtrlState) (addr : Addr) (now : Nat)
        (sender : Int) (nbrs : List (Int × Bool)),
      st.sw.lookup sender = none →
      topology_update_step tmpl n st addr now sender nbrs = none) ∧
    (∀ (tmpl : NetTopology) (n : Nat) (st : CtrlState) (addr : Addr) (now : Nat)
        (sender : Int) (nbrs : List (Int × Bool)) (info : SwitchInfo),
      st.sw.lookup sender = some info →
      ∃ r, topology_update_step tmpl n st addr now sender nbrs = some r ∧
        r.1.last_heard.lookup sender = some now ∧
        r.1.sw.lookup sender = some ⟨addr.1, addr.2⟩ ∧
        r.1.switch_neighbors.lookup sender = some (dictOfList nbrs)) := by
  constructor
  · intro tmpl n st addr now sender nbrs h
    simp [topology_update_step, h]
  · intro tmpl n st addr now sender nbrs info h
    unfold topology_update_step
    rw [h]
    refine ⟨_, rfl, ?_, ?_, ?_⟩
    · rw [recompute_fst]
      exact lookup_setk_self st.last_heard sender now
    · rw [recompute_fst]
      exact lookup_setk_self st.sw sender ⟨addr.1, addr.2⟩
    · rw [recompute_fst]
      exact lookup_setk_self st.switch_neighbors sender (dictOfList nbrs)

/-- Witness for the amended C8: sender 0 is registered, sender 7 is not. -/
theorem c8_unknown_sender_behavior_witness :
    topology_update_step tmplOne 1 stOne (LOCALHOST, 5555) 3 7 [] = none ∧
    ∃ r, topology_update_step tmplOne 1 stOne (LOCALHOST, 5555) 3 0 [] = some r ∧
      r.1.last_heard.lookup 0 = some 3 ∧
      r.1.sw.lookup 0 = some ⟨LOCALHOST, 5555⟩ ∧
      r.1.switch_neighbors.lookup 0 = some (dictOfList []) :=
  ⟨c8_unknown_sender_behavior.1 tmplOne 1 stOne (LOCALHOST, 5555) 3 7 [] (by decide),
    c8_unknown_sender_behavior.2 tmplOne 1 stOne (LOCALHOST, 5555) 3 0 []
      ⟨LOCALHOST, 7000⟩ (by decide)⟩

/-! ## Dijkstra correctness (claims C1, C4, C6, C9) -/

theorem Reach.append {adj : Int → List (Int × Nat)} {a b : Int} {k : Nat}
    (h : Reach adj a b k) {v : Int} {c : Nat} (he : (v, c) ∈ adj b) :
    Reach adj a v (k + c) := by
  induction h with
  | refl u =>
    have := Reach.step he (@Reach.refl adj v)
    simpa [Nat.add_comm] using this
  | step hedge _ ih =>
    have := Reach.step hedge (ih he)
    simpa [Nat.add_assoc] using this

theorem lookup_mem {α β : Type} [BEq α] [LawfulBEq α] {l : List (α × β)} {k : α} {v : β}
    (h : l.lookup k = some v) : (k, v) ∈ l := by
  obtain ⟨l1, l2, rfl, -⟩ := List.lookup_eq_some_iff.mp h
  simp

theorem adjValid_of_validTopo {topo : NetTopology} {n : Nat} (h : ValidTopo topo n) :
    AdjValid (adjOf topo) n := by
  intro u p hp
  unfold adjOf lookupD at hp
  cases hl : List.lookup u topo with
  | none => simp [hl] at hp
  | some l =>
    rw [hl] at hp
    simp only [Option.getD_some] at hp
    have := h (u, l) (lookup_mem hl) p hp
    exact ⟨⟨this.1, this.2.1⟩, this.2.2⟩

theorem pqMinAux_spec (l : List (Nat × Int)) (e : Nat × Int) :
    pqMinAux e l ∈ e :: l ∧ (pqMinAux e l).1 ≤ e.1 ∧ ∀ x ∈ l, (pqMinAux e l).1 ≤ x.1 := by
  induction l generalizing e with
  | nil => simp [pqMinAux]
  | cons f r ih =>
    simp only [pqMinAux]
    by_cases hle : pqLe e f = true
    · rw [if_pos hle]
      obtain ⟨hmem, hfst, hall⟩ := ih e
      have hef : e.1 ≤ f.1 := by
        simp only [pqLe, Bool.or_eq_true, Bool.and_eq_true, decide_eq_true_eq] at hle
        omega
      refine ⟨?_, hfst, ?_⟩
      · rcases List.mem_cons.mp hmem with h | h
        · simp [h]
        · simp [List.mem_cons, h]
      · intro x hx
        rcases List.mem_cons.mp hx with rfl | hx
        · omega
        · exact hall x hx
    · rw [if_neg hle]
      obtain ⟨hmem, hfst, hall⟩ := ih f
      have hfe : f.1 ≤ e.1 := by
        simp only [pqLe, Bool.or_eq_true, Bool.and_eq_true, decide_eq_true_eq] at hle
        omega
      refine ⟨?_, by omega, ?_⟩
      · rcases List.mem_cons.mp hmem with h | h
        · simp [List.mem_cons, h]
        · simp [List.mem_cons, h]
      · intro x hx
        rcases List.mem_cons.mp hx with rfl | hx
        · omega
        · exact hall x hx

/-- Any path from a visited node to an unvisited one passes an unvisited node
whose tentative distance is at most the path cost plus the start distance. -/
theorem dinv_cut {adj : Int → List (Int × Nat)} {src : Int} {n : Nat} {st : DState}
    (hI : DInv adj src n st) (hR : AllRelaxed adj st) :
    ∀ (a v : Int) (j : Nat), Reach adj a v j → a ∈ st.vis → v ∉ st.vis →
      ∃ y ky ka, y ∉ st.vis ∧ st.dist y = some ky ∧ st.dist a = some ka ∧ ky ≤ ka + j := by
  intro a v j hreach
  induction hreach with
  | refl u =>
    intro hu hnu
    exact absurd hu hnu
  | step hedge htail ih =>
    rename_i u w z c k
    intro hu hnz
    obtain ⟨ka, hka, -⟩ := hI.vis_min u hu
    by_cases hw : w ∈ st.vis
    · obtain ⟨y, ky, ka2, hy, hky, hka2, hle⟩ := ih hw hnz
      obtain ⟨kw1, ku1, hkw1, hku1, hrel⟩ := hR u hu (w, c) hedge
      rw [hka] at hku1
      rw [hka2] at hkw1
      refine ⟨y, ky, ka, hy, hky, hka, ?_⟩
      have h1 : ka2 ≤ ka + c := by
        cases hku1
        cases hkw1
        omega
      omega
    · obtain ⟨kw1, ku1, hkw1, hku1, hrel⟩ := hR u hu (w, c) hedge
      rw [hka] at hku1
      cases hku1
      exact ⟨w, kw1, ka, hw, hkw1, hka, by omega⟩

/-- Any path from the source to an unvisited node yields an unvisited node with
tentative distance at most the path cost. -/
theorem dinv_reach_lower {adj : Int → List (Int × Nat)} {src : Int} {n : Nat} {st : DState}
    (hI : DInv adj src n st) (hR : AllRelaxed adj st) :
    ∀ (v : Int) (j : Nat), Reach adj src v j → v ∉ st.vis →
      ∃ y ky, y ∉ st.vis ∧ st.dist y = some ky ∧ ky ≤ j := by
  intro v j hreach hnv
  by_cases hsrc : src ∈ st.vis
  · obtain ⟨y, ky, ka, hy, hky, hka, hle⟩ := dinv_cut hI hR src v j hreach hsrc hnv
    rw [hI.dist_src] at hka
    cases hka
    exact ⟨y, ky, hy, hky, by omega⟩
  · exact ⟨src, 0, hsrc, hI.dist_src, Nat.zero_le j⟩

/-- The popped minimum over an unvisited node carries its exact tentative
distance, which is the true shortest distance. -/
theorem pop_min_correct {adj : Int → List (Int × Nat)} {src : Int} {n : Nat} {st : DState}
    (hI : DInv adj src n st) (hR : AllRelaxed adj st) {e : Nat × Int} {rest : List (Nat × Int)}
    (hpq : st.pq = e :: rest) (hnv : (pqMinAux e rest).2 ∉ st.vis) :
    st.dist (pqMinAux e rest).2 = some (pqMinAux e rest).1 ∧
      MinDist adj src (pqMinAux e rest).2 (pqMinAux e rest).1 := by
  set m := pqMinAux e rest with hm
  obtain ⟨hmem, hfst, hall⟩ := pqMinAux_spec rest e
  rw [← hpq] at hmem
  have hmin : ∀ x ∈ st.pq, m.1 ≤ x.1 := by
    intro x hx
    rw [hpq] at hx
    rcases List.mem_cons.mp hx with rfl | hx
    · exact hfst
    · exact hall x hx
  obtain ⟨-, k, hk, hkle⟩ := hI.pq_valid m hmem
  have hpqk : (k, m.2) ∈ st.pq := hI.unvis_pq m.2 k hnv hk
  have hle2 : m.1 ≤ k := hmin (k, m.2) hpqk
  have hkeq : k = m.1 := by omega
  subst hkeq
  refine ⟨hk, hI.dist_sound m.2 m.1 hk, ?_⟩
  intro j hj
  obtain ⟨y, ky, hy, hky, hkyj⟩ := dinv_reach_lower hI hR m.2 j hj hnv
  have : (ky, y) ∈ st.pq := hI.unvis_pq y ky hy hky
  have := hmin (ky, y) this
  omega

/-- Effect of one improving relaxation of the edge (u0, v, c). -/
theorem relax_one_improved {adj : Int → List (Int × Nat)} {src : Int} {n : Nat}
    (hval : AdjValid adj n) {u0 : Int} {d : Nat}
    (hmin : MinDist adj src u0 d) {v : Int} {c : Nat} (hedge : (v, c) ∈ adj u0)
    {es : List (Int × Nat)} {st : DState}
    (hu0 : u0 ∈ st.vis) (hd : st.dist u0 = some d)
    (hI : DInv adj src n st) (hRE : RelaxedExcept adj u0 ((v, c) :: es) st)
    (halt : st.dist v = none ∨ ∃ dv, st.dist v = some dv ∧ d + c < dv) :
    DInv adj src n
      ⟨fun x => if x = v then some (d + c) else st.dist x,
        fun x => if x = v then some u0 else st.prev x, st.vis, st.pq ++ [(d + c, v)]⟩ ∧
      RelaxedExcept adj u0 es
        ⟨fun x => if x = v then some (d + c) else st.dist x,
          fun x => if x = v then some u0 else st.prev x, st.vis, st.pq ++ [(d + c, v)]⟩ ∧
      v ∉ st.vis := by
  have hreachv : Reach adj src v (d + c) := (hI.dist_sound u0 d hd).append hedge
  have hvq := hval u0 (v, c) hedge
  have hvnv : v ∉ st.vis := by
    intro hv
    obtain ⟨kv, hkv, hkmin⟩ := hI.vis_min v hv
    have hle := hkmin.2 _ hreachv
    rcases halt with hnone | ⟨dv, hdv, hlt⟩
    · rw [hkv] at hnone
      exact Option.noConfusion hnone
    · rw [hkv] at hdv
      cases hdv
      omega
  have hvs : v ≠ src := by
    intro heq
    subst heq
    rcases halt with hnone | ⟨dv, hdv, hlt⟩
    · rw [hI.dist_src] at hnone
      exact Option.noConfusion hnone
    · rw [hI.dist_src] at hdv
      cases hdv
      omega
  have hu0v : u0 ≠ v := fun h => hvnv (h ▸ hu0)
  refine ⟨?_, ?_, hvnv⟩
  · refine ⟨hI.vis_valid, ?_, ?_, ?_, ?_, ?_, ?_, ?_⟩
    · intro e he
      rcases List.mem_append.mp he with he | he
      · obtain ⟨hb, k, hk, hkle⟩ := hI.pq_valid e he
        refine ⟨hb, ?_⟩
        by_cases hev : e.2 = v
        · rw [hev] at hk
          rcases halt with hnone | ⟨dv, hdv, hlt⟩
          · rw [hk] at hnone
            exact Option.noConfusion hnone
          · rw [hk] at hdv
            cases hdv
            exact ⟨d + c, by simp [hev], by omega⟩
        · exact ⟨k, by simp [hev, hk], hkle⟩
      · simp only [List.mem_singleton] at he
        subst he
        exact ⟨⟨hvq.1.1, hvq.1.2⟩, d + c, by simp, le_refl _⟩
    · intro x k hx
      by_cases hxv : x = v
      · subst hxv
        dsimp only at hx
        rw [if_pos rfl] at hx
        injection hx with hx
        subst hx
        exact hreachv
      · simp only [if_neg hxv] at hx
        exact hI.dist_sound x k hx
    · simp only [if_neg (Ne.symm hvs)]
      exact hI.dist_src
    · simp only [if_neg (Ne.symm hvs)]
      exact hI.prev_src
    · intro u hu
      obtain ⟨k, hk, hkm⟩ := hI.vis_min u hu
      have huv : u ≠ v := fun h => hvnv (h ▸ hu)
      exact ⟨k, by simp [huv, hk], hkm⟩
    · intro x k hxv hx
      by_cases hxeq : x = v
      · subst hxeq
        dsimp only at hx
        rw [if_pos rfl] at hx
        injection hx with hx
        subst hx
        simp
      · simp only [if_neg hxeq] at hx
        have := hI.unvis_pq x k hxv hx
        exact List.mem_append.mpr (Or.inl this)
    · intro x k hxs hx
      by_cases hxeq : x = v
      · subst hxeq
        dsimp only at hx
        rw [if_pos rfl] at hx
        injection hx with hx
        subst hx
        exact ⟨u0, c, d, by simp, hedge, by simp [if_neg hu0v, hd], hmin, hu0, rfl⟩
      · simp only [if_neg hxeq] at hx
        obtain ⟨u, c2, ku, hprev, hed2, hku, hkum, huvis, hsum⟩ := hI.prev_spec x k hxs hx
        have huv : u ≠ v := fun h => hvnv (h ▸ huvis)
        exact ⟨u, c2, ku, by simp [hxeq, hprev], hed2, by simp [huv, hku], hkum, huvis, hsum⟩
  · intro u hu p hp
    rcases hRE u hu p hp with ⟨rfl, hpe⟩ | hrel
    · rcases List.mem_cons.mp hpe with rfl | hpe
      · right
        exact ⟨d + c, d, by simp, by simp [if_neg hu0v, hd], le_refl _⟩
      · exact Or.inl ⟨rfl, hpe⟩
    · right
      obtain ⟨kv, ku, hkv, hku, hle⟩ := hrel
      have huv : u ≠ v := fun h => hvnv (h ▸ hu)
      by_cases hpv : p.1 = v
      · rw [hpv] at hkv
        rcases halt with hnone | ⟨dv, hdv, hlt⟩
        · rw [hkv] at hnone
          exact Option.noConfusion hnone
        · rw [hkv] at hdv
          cases hdv
          exact ⟨d + c, ku, by simp [hpv], by simp [huv, hku], by omega⟩
      · exact ⟨kv, ku, by simp [hpv, hkv], by simp [huv, hku], hle⟩

theorem relaxAll_spec {adj : Int → List (Int × Nat)} {src : Int} {n : Nat}
    (hval : AdjValid adj n) (u0 : Int) (d : Nat) (hmin : MinDist adj src u0 d) :
    ∀ (es : List (Int × Nat)) (st : DState),
      (∀ p ∈ es, p ∈ adj u0) → u0 ∈ st.vis → st.dist u0 = some d →
      DInv adj src n st → RelaxedExcept adj u0 es st →
      DInv adj src n (relaxAll d u0 es st) ∧ AllRelaxed adj (relaxAll d u0 es st) ∧
        (relaxAll d u0 es st).vis = st.vis ∧
        (relaxAll d u0 es st).pq.length ≤ st.pq.length + es.length := by
  intro es
  induction es with
  | nil =>
    intro st hsub hu0 hd hI hRE
    refine ⟨hI, ?_, rfl, by simp [relaxAll]⟩
    intro u hu p hp
    rcases hRE u hu p hp with ⟨-, hpe⟩ | hrel
    · simp at hpe
    · exact hrel
  | cons pe es ih =>
    intro st hsub hu0 hd hI hRE
    obtain ⟨v, c⟩ := pe
    have hedge : (v, c) ∈ adj u0 := hsub (v, c) (by simp)
    have hsub' : ∀ p ∈ es, p ∈ adj u0 := fun p hp => hsub p (by simp [hp])
    cases hv : st.dist v with
    | none =>
      obtain ⟨hI', hRE', hvnv⟩ :=
        relax_one_improved hval hmin hedge hu0 hd hI hRE (Or.inl hv)
      have hu0v : u0 ≠ v := fun h => hvnv (h ▸ hu0)
      set st' : DState := ⟨fun x => if x = v then some (d + c) else st.dist x,
        fun x => if x = v then some u0 else st.prev x, st.vis,
        st.pq ++ [(d + c, v)]⟩ with hst'
      have hd' : st'.dist u0 = some d := by
        rw [hst']
        dsimp only
        rw [if_neg hu0v]
        exact hd
      obtain ⟨hI2, hA2, hveq, hlen⟩ :=
        ih st' hsub' (show u0 ∈ st'.vis from hu0) hd' hI' hRE'
      simp only [relaxAll, hv, eq_self_iff_true, if_true]
      refine ⟨hI2, hA2, hveq, ?_⟩
      rw [hst'] at hlen
      simp only [List.length_append, List.length_cons, List.length_nil] at hlen ⊢
      omega
    | some dv =>
      by_cases hlt : d + c < dv
      · have hdec : decide (d + c < dv) = true := decide_eq_true hlt
        obtain ⟨hI', hRE', hvnv⟩ :=
          relax_one_improved hval hmin hedge hu0 hd hI hRE (Or.inr ⟨dv, hv, hlt⟩)
        have hu0v : u0 ≠ v := fun h => hvnv (h ▸ hu0)
        set st' : DState := ⟨fun x => if x = v then some (d + c) else st.dist x,
          fun x => if x = v then some u0 else st.prev x, st.vis,
          st.pq ++ [(d + c, v)]⟩ with hst'
        have hd' : st'.dist u0 = some d := by
          rw [hst']
          dsimp only
          rw [if_neg hu0v]
          exact hd
        obtain ⟨hI2, hA2, hveq, hlen⟩ :=
          ih st' hsub' (show u0 ∈ st'.vis from hu0) hd' hI' hRE'
        simp only [relaxAll, hv, hdec, eq_self_iff_true, if_true]
        refine ⟨hI2, hA2, hveq, ?_⟩
        rw [hst'] at hlen
        simp only [List.length_append, List.length_cons, List.length_nil] at hlen ⊢
        omega
      · have hdec : decide (d + c < dv) = false := by
          simp [hlt]
        have hRE' : RelaxedExcept adj u0 es st := by
          intro u hu p hp
          rcases hRE u hu p hp with ⟨heq, hpe⟩ | hrel
          · subst heq
            rcases List.mem_cons.mp hpe with heq2 | hpe
            · right
              rw [heq2]
              exact ⟨dv, d, hv, hd, by omega⟩
            · exact Or.inl ⟨rfl, hpe⟩
          · exact Or.inr hrel
        obtain ⟨hI2, hA2, hveq, hlen⟩ := ih st hsub' hu0 hd hI hRE'
        simp only [relaxAll, hv, hdec, Bool.false_eq_true, if_false]
        refine ⟨hI2, hA2, hveq, ?_⟩
        simp only [List.length_cons]
        omega

theorem sum_filter_remove (l : List Nat) (hnd : l.Nodup) (m : Nat) (hm : m ∈ l)
    (p : Nat → Bool) (hp : p m = true) (w : Nat → Nat) :
    ((l.filter fun x => p x && !(x == m)).map w).sum + w m = ((l.filter p).map w).sum := by
  induction l with
  | nil => simp at hm
  | cons a tl ih =>
    simp only [List.nodup_cons] at hnd
    by_cases ham : a = m
    · subst ham
      have hfl : tl.filter (fun x => p x && !(x == a)) = tl.filter p := by
        apply List.filter_congr
        intro x hx
        have hxa : (x == a) = false := by
          simp only [beq_eq_false_iff_ne, ne_eq]
          intro heq
          exact hnd.1 (heq ▸ hx)
        simp [hxa]
      simp only [List.filter_cons, hp, beq_self_eq_true, Bool.not_true, Bool.and_false,
        Bool.false_eq_true, if_false, if_true, hfl, List.map_cons, List.sum_cons]
      omega
    · have hmtl : m ∈ tl := by
        rcases List.mem_cons.mp hm with h | h
        · exact absurd h.symm ham
        · exact h
      have ham2 : (a == m) = false := by
        simp [ham]
      by_cases hpa : p a = true
      · simp only [List.filter_cons, hpa, ham2, Bool.not_false, Bool.and_true, if_true,
          List.map_cons, List.sum_cons]
        have := ih hnd.2 hmtl
        omega
      · have hpa2 : p a = false := by simpa using hpa
        simp only [List.filter_cons, hpa2, Bool.false_and, Bool.false_eq_true, if_false]
        exact ih hnd.2 hmtl

theorem contains_eq_false_of_not_mem {l : List Int} {x : Int} (h : x ∉ l) :
    l.contains x = false := by
  simpa using h

theorem dijkstraLoop_spec {adj : Int → List (Int × Nat)} {src : Int} {n : Nat}
    (hval : AdjValid adj n) :
    ∀ (fuel : Nat) (st : DState), DInv adj src n st → AllRelaxed adj st →
      dPotential adj n st ≤ fuel →
      DInv adj src n (dijkstraLoop adj fuel st) ∧ AllRelaxed adj (dijkstraLoop adj fuel st) ∧
        (dijkstraLoop adj fuel st).pq = [] := by
  intro fuel
  induction fuel with
  | zero =>
    intro st hI hA hpot
    have hlen : st.pq.length = 0 := by
      unfold dPotential at hpot
      omega
    exact ⟨hI, hA, List.length_eq_zero.mp hlen⟩
  | succ fuel ih =>
    intro st hI hA hpot
    cases hpq : st.pq with
    | nil =>
      have hres : dijkstraLoop adj (fuel + 1) st = st := by
        simp [dijkstraLoop, hpq]
      rw [hres]
      exact ⟨hI, hA, hpq⟩
    | cons e rest =>
      simp only [dijkstraLoop, hpq]
      set m := pqMinAux e rest with hm
      have hmem : m ∈ st.pq := by
        rw [hpq]
        exact (pqMinAux_spec rest e).1
      have hmemc : m ∈ e :: rest := by
        rw [← hpq]
        exact hmem
      have herlen : ((e :: rest).erase m).length = rest.length := by
        rw [List.length_erase_of_mem hmemc]
        simp
      by_cases hvis : m.2 ∈ st.vis
      · rw [if_pos hvis]
        have hIS : DInv adj src n { st with pq := (e :: rest).erase m } := by
          refine ⟨hI.vis_valid, ?_, hI.dist_sound, hI.dist_src, hI.prev_src, hI.vis_min,
            ?_, hI.prev_spec⟩
          · intro e2 he2
            have : e2 ∈ st.pq := by
              rw [hpq]
              exact List.mem_of_mem_erase he2
            exact hI.pq_valid e2 this
          · intro x k hx hk
            have hw := hI.unvis_pq x k hx hk
            rw [hpq] at hw
            have hne : (k, x) ≠ m := by
              intro heq
              apply hx
              rw [← heq] at hvis
              exact hvis
            exact (List.mem_erase_of_ne hne).mpr hw
        have hAS : AllRelaxed adj { st with pq := (e :: rest).erase m } := hA
        have hpotS : dPotential adj n { st with pq := (e :: rest).erase m } ≤ fuel := by
          unfold dPotential at hpot ⊢
          rw [hpq] at hpot
          simp only [List.length_cons] at hpot
          simp only [herlen]
          omega
        exact ih _ hIS hAS hpotS
      · rw [if_neg hvis]
        obtain ⟨hdm, hmind⟩ := pop_min_correct hI hA hpq hvis
        obtain ⟨hb, -⟩ := hI.pq_valid m hmem
        set st1 : DState := { st with vis := m.2 :: st.vis, pq := (e :: rest).erase m }
          with hst1
        have hI1 : DInv adj src n st1 := by
          refine ⟨?_, ?_, hI.dist_sound, hI.dist_src, hI.prev_src, ?_, ?_, ?_⟩
          · intro u hu
            rcases List.mem_cons.mp hu with rfl | hu
            · exact hb
            · exact hI.vis_valid u hu
          · intro e2 he2
            have : e2 ∈ st.pq := by
              rw [hpq]
              exact List.mem_of_mem_erase he2
            exact hI.pq_valid e2 this
          · intro u hu
            rcases List.mem_cons.mp hu with rfl | hu
            · exact ⟨m.1, hdm, hmind⟩
            · exact hI.vis_min u hu
          · intro x k hx hk
            have hxv : x ∉ st.vis := fun h => hx (List.mem_cons_of_mem _ h)
            have hxm : x ≠ m.2 := fun h => hx (h ▸ List.mem_cons_self _ _)
            have hw := hI.unvis_pq x k hxv hk
            rw [hpq] at hw
            have hne : (k, x) ≠ m := by
              intro heq
              exact hxm (congrArg Prod.snd heq)
            exact (List.mem_erase_of_ne hne).mpr hw
          · intro x k hxs hk
            obtain ⟨u, c, ku, h1, h2, h3, h4, h5, h6⟩ := hI.prev_spec x k hxs hk
            exact ⟨u, c, ku, h1, h2, h3, h4, List.mem_cons_of_mem _ h5, h6⟩
        have hRE1 : RelaxedExcept adj m.2 (adj m.2) st1 := by
          intro u hu p hp
          rcases List.mem_cons.mp hu with rfl | hu
          · exact Or.inl ⟨rfl, hp⟩
          · exact Or.inr (hA u hu p hp)
        obtain ⟨hI2, hA2, hveq, hlen2⟩ :=
          relaxAll_spec hval m.2 m.1 hmind (adj m.2) st1 (fun p hp => hp)
            (List.mem_cons_self _ _) hdm hI1 hRE1
        set st2 := relaxAll m.1 m.2 (adj m.2) st1 with hst2
        have hm2lt : (m.2).toNat < n := by omega
        have hm2 : ((m.2).toNat : Int) = m.2 := Int.toNat_of_nonneg hb.1
        have hcast : ∀ x : Nat, (((x : Nat) : Int) == m.2) = (x == (m.2).toNat) := by
          intro x
          by_cases hxeq : (x : Int) = m.2
          · have hx2 : x = (m.2).toNat := by omega
            subst hx2
            simp [hxeq]
          · have hx2 : x ≠ (m.2).toNat := by omega
            simp [hxeq, hx2]
        have hpot2 : dPotential adj n st2 ≤ fuel := by
          unfold dPotential
          rw [hveq]
          have hfilter : ((List.range n).filter
                fun (u : Nat) => !((st1.vis).contains (u : Int)))
              = (List.range n).filter
                  fun (u : Nat) => (!(st.vis.contains (u : Int))) && !(u == (m.2).toNat) := by
            apply List.filter_congr
            intro x hx
            rw [hst1]
            simp only [List.contains_cons, Bool.not_or, hcast x]
            rw [Bool.and_comm]
          have hrem := sum_filter_remove (List.range n) (List.nodup_range n) (m.2).toNat
            (List.mem_range.mpr hm2lt) (fun (u : Nat) => !(st.vis.contains (u : Int)))
            (by
              simp only [hm2, Bool.not_eq_eq_eq_not, Bool.not_false]
              exact contains_eq_false_of_not_mem hvis)
            (fun (u : Nat) => 1 + (adj (u : Int)).length)
          rw [hfilter]
          unfold dPotential at hpot
          rw [hpq] at hpot
          simp only [List.length_cons] at hpot
          have hlen2b : st2.pq.length ≤ rest.length + (adj m.2).length := by
            rw [hst1] at hlen2
            simp only [herlen] at hlen2
            exact hlen2
          rw [hm2] at hrem
          omega
        exact ih st2 hI2 hA2 hpot2

theorem dijkstraFinal_spec {topo : NetTopology} {n : Nat} {src : Int}
    (hval : ValidTopo topo n) (h0 : 0 ≤ src) (h1 : src < (n : Int)) :
    DInv (adjOf topo) src n (dijkstraFinal src topo n) ∧
      AllRelaxed (adjOf topo) (dijkstraFinal src topo n) ∧
      (dijkstraFinal src topo n).pq = [] := by
  have hadj := adjValid_of_validTopo hval
  have hInit : DInv (adjOf topo) src n (dijkstraInit src) := by
    refine ⟨?_, ?_, ?_, ?_, ?_, ?_, ?_, ?_⟩
    · intro u hu
      simp [dijkstraInit] at hu
    · intro e he
      simp only [dijkstraInit, List.mem_singleton] at he
      subst he
      exact ⟨⟨h0, h1⟩, 0, by simp [dijkstraInit], le_refl 0⟩
    · intro v k hv
      simp only [dijkstraInit] at hv
      by_cases hvs : v = src
      · subst hvs
        rw [if_pos rfl] at hv
        injection hv with hv
        subst hv
        exact Reach.refl _
      · rw [if_neg hvs] at hv
        exact Option.noConfusion hv
    · simp [dijkstraInit]
    · rfl
    · intro u hu
      simp [dijkstraInit] at hu
    · intro v k hv hk
      simp only [dijkstraInit] at hk
      by_cases hvs : v = src
      · subst hvs
        rw [if_pos rfl] at hk
        injection hk with hk
        subst hk
        simp [dijkstraInit]
      · rw [if_neg hvs] at hk
        exact Option.noConfusion hk
    · intro v k hvs hk
      simp only [dijkstraInit, if_neg hvs] at hk
      exact Option.noConfusion hk
  have hAInit : AllRelaxed (adjOf topo) (dijkstraInit src) := by
    intro u hu p hp
    simp [dijkstraInit] at hu
  have hpot : dPotential (adjOf topo) n (dijkstraInit src) ≤ dijkstraFuel topo n := by
    unfold dPotential dijkstraInit dijkstraFuel
    simp
  exact dijkstraLoop_spec hadj (dijkstraFuel topo n) (dijkstraInit src) hInit hAInit hpot

theorem final_dist_minDist {topo : NetTopology} {n : Nat} {src : Int}
    (hval : ValidTopo topo n) (h0 : 0 ≤ src) (h1 : src < (n : Int)) :
    ∀ v k, (dijkstraFinal src topo n).dist v = some k → MinDist (adjOf topo) src v k := by
  obtain ⟨hI, hA, hpq⟩ := dijkstraFinal_spec hval h0 h1
  intro v k hv
  by_cases hvis : v ∈ (dijkstraFinal src topo n).vis
  · obtain ⟨k2, hk2, hm⟩ := hI.vis_min v hvis
    rw [hv] at hk2
    injection hk2 with hk2
    subst hk2
    exact hm
  · have := hI.unvis_pq v k hvis hv
    rw [hpq] at this
    simp at this

theorem final_dist_none {topo : NetTopology} {n : Nat} {src : Int}
    (hval : ValidTopo topo n) (h0 : 0 ≤ src) (h1 : src < (n : Int)) :
    ∀ v, (dijkstraFinal src topo n).dist v = none → ¬ Reachable (adjOf topo) src v := by
  obtain ⟨hI, hA, hpq⟩ := dijkstraFinal_spec hval h0 h1
  intro v hv hre
  obtain ⟨j, hreach⟩ := hre
  by_cases hvis : v ∈ (dijkstraFinal src topo n).vis
  · obtain ⟨k2, hk2, -⟩ := hI.vis_min v hvis
    rw [hv] at hk2
    exact Option.noConfusion hk2
  · obtain ⟨y, ky, hy, hky, -⟩ := dinv_reach_lower hI hA v j hreach hvis
    have := hI.unvis_pq y ky hy hky
    rw [hpq] at this
    simp at this

theorem belowCount_lt {adj : Int → List (Int × Nat)} {src : Int} {n : Nat} {st : DState}
    (hI : DInv adj src n st) {u v : Int} {ku k : Nat}
    (hku : st.dist u = some ku) (hk : st.dist v = some k) (hlt : ku < k)
    (hb : 0 ≤ u ∧ u < (n : Int)) :
    belowCount st.dist n u < belowCount st.dist n v := by
  apply Finset.card_lt_card
  rw [Finset.ssubset_def]
  constructor
  · intro x hx
    simp only [belowCount, Finset.mem_filter, Finset.mem_range] at hx ⊢
    refine ⟨hx.1, ?_⟩
    have hx2 := hx.2
    cases hdx : st.dist (x : Int) with
    | none =>
      rw [hdx] at hx2
      simp [oLt] at hx2
    | some kx =>
      rw [hdx, hku] at hx2
      simp only [oLt, decide_eq_true_eq] at hx2
      rw [hk]
      simp only [oLt, decide_eq_true_eq]
      omega
  · intro hsub
    have humem : (u).toNat ∈ (Finset.range n).filter
        (fun (x : Nat) => oLt (st.dist (x : Int)) (st.dist v) = true) := by
      simp only [Finset.mem_filter, Finset.mem_range]
      have hcast : ((u.toNat : Nat) : Int) = u := Int.toNat_of_nonneg hb.1
      refine ⟨by omega, ?_⟩
      rw [hcast, hku, hk]
      simp only [oLt, decide_eq_true_eq]
      omega
    have := hsub humem
    simp only [belowCount, Finset.mem_filter, Finset.mem_range] at this
    have hcast : ((u.toNat : Nat) : Int) = u := Int.toNat_of_nonneg hb.1
    rw [hcast, hku] at this
    have hx2 := this.2
    simp only [oLt, decide_eq_true_eq] at hx2
    omega

theorem hopWalk_correct {adj : Int → List (Int × Nat)} {src : Int} {n : Nat} {st : DState}
    (hI : DInv adj src n st) (hval : AdjValid adj n) :
    ∀ (fuel : Nat) (v : Int) (k : Nat), st.dist v = some k → v ≠ src →
      belowCount st.dist n v < fuel →
      ∃ h kh j, hopWalk st.prev src fuel v = some h ∧ st.prev h = some src ∧
        st.dist h = some kh ∧ Reach adj h v j ∧ kh + j = k := by
  intro fuel
  induction fuel with
  | zero =>
    intro v k _ _ hcnt
    omega
  | succ fuel ih =>
    intro v k hv hvs hcnt
    obtain ⟨u, c, ku, hprev, hedge, hku, hkum, huvis, hsum⟩ := hI.prev_spec v k hvs hv
    have hc1 : 1 ≤ c := (hval u (v, c) hedge).2
    simp only [hopWalk, hprev]
    by_cases hus : u = src
    · subst hus
      rw [if_pos rfl]
      exact ⟨v, k, 0, rfl, hprev, hv, Reach.refl v, by omega⟩
    · rw [if_neg hus]
      have hbu := hI.vis_valid u huvis
      have hult : belowCount st.dist n u < belowCount st.dist n v :=
        belowCount_lt hI hku hv (by omega) hbu
      obtain ⟨h, kh, j, hwalk, hprevh, hdh, hreach, hsum2⟩ := ih u ku hku hus (by omega)
      exact ⟨h, kh, j + c, hwalk, hprevh, hdh, hreach.append hedge, by omega⟩

theorem belowCount_lt_n {dist : Int → Option Nat} {n : Nat} {d : Nat} (hd : d < n) :
    belowCount dist n (d : Int) < n := by
  have hsub : (Finset.range n).filter
      (fun (x : Nat) => oLt (dist (x : Int)) (dist (d : Int)) = true) ⊂ Finset.range n := by
    rw [Finset.ssubset_def]
    refine ⟨Finset.filter_subset _ _, ?_⟩
    intro hsub2
    have := hsub2 (Finset.mem_range.mpr hd)
    simp only [Finset.mem_filter] at this
    have hx := this.2
    cases hdd : dist (d : Int) with
    | none =>
      rw [hdd] at hx
      simp [oLt] at hx
    | some k =>
      rw [hdd] at hx
      simp only [oLt, decide_eq_true_eq] at hx
      omega
  have := Finset.card_lt_card hsub
  simpa using this

theorem lookup_map_cast {α : Type} (f : Nat → α) (l : List Nat) (s : Nat) (hmem : s ∈ l) :
    (l.map fun (x : Nat) => ((x : Int), f x)).lookup (s : Int) = some (f s) ∨
      (∃ a ∈ l, a ≠ s ∧ ((s : Int) == (a : Int)) = true) := by
  left
  induction l with
  | nil => simp at hmem
  | cons a tl ih =>
    simp only [List.map_cons, List.lookup_cons]
    by_cases has : s = a
    · subst has
      simp
    · have hbeq : ((s : Int) == (a : Int)) = false := by
        simp only [beq_eq_false_iff_ne, ne_eq, Int.natCast_inj]
        exact has
      rw [hbeq]
      have hmem2 : s ∈ tl := by
        rcases List.mem_cons.mp hmem with h | h
        · exact absurd h has
        · exact h
      exact ih hmem2

theorem compute_routing_tables_lookup (topo : NetTopology) (n : Nat) (s : Nat) (hs : s < n) :
    (compute_routing_tables topo n).lookup (s : Int) = some (routingTableFor topo n s) := by
  unfold compute_routing_tables
  rcases lookup_map_cast (routingTableFor topo n) (List.range n) s (List.mem_range.mpr hs) with
    h | ⟨a, -, hne, hbeq⟩
  · exact h
  · simp only [beq_iff_eq, Int.natCast_inj] at hbeq
    exact absurd hbeq.symm hne

theorem routingTableFor_spec (topo : NetTopology) (n : Nat) (hval : ValidTopo topo n)
    (s : Nat) (hs : s < n) :
    (compute_routing_tables topo n).lookup (s : Int) = some (routingTableFor topo n s) ∧
    (routingTableFor topo n s).length = n ∧
    ∀ d : Nat, d < n →
      ∃ e, (routingTableFor topo n s).get? d = some e ∧
        (d = s → e = [(s : Int), (s : Int), (s : Int), 0]) ∧
        (¬ Reachable (adjOf topo) (s : Int) (d : Int) →
          e = [(s : Int), (d : Int), -1, 9999]) ∧
        (d ≠ s → Reachable (adjOf topo) (s : Int) (d : Int) →
          ∃ k h, MinDist (adjOf topo) (s : Int) (d : Int) k ∧
            ShortestNextHop (adjOf topo) (s : Int) (d : Int) h ∧
            e = [(s : Int), (d : Int), h, (k : Int)]) := by
  have h0 : (0 : Int) ≤ (s : Int) := Int.natCast_nonneg s
  have h1 : (s : Int) < (n : Int) := by exact_mod_cast hs
  obtain ⟨hI, hA, hpq⟩ := dijkstraFinal_spec hval h0 h1
  have hadj := adjValid_of_validTopo hval
  refine ⟨compute_routing_tables_lookup topo n s hs, by simp [routingTableFor], ?_⟩
  intro d hd
  refine ⟨(match (dijkstraFinal (s : Int) topo n).dist (d : Int) with
    | none => [(s : Int), (d : Int), UNREACHABLE_HOP, (UNREACHABLE_DISTANCE : Int)]
    | some k =>
      [(s : Int), (d : Int),
        hopFor (dijkstraFinal (s : Int) topo n) (s : Int) n (d : Int), (k : Int)]), ?_, ?_, ?_, ?_⟩
  · unfold routingTableFor
    rw [List.get?_map, List.get?_range hd]
    rfl
  · intro hds
    subst hds
    rw [hI.dist_src]
    have hhop : hopFor (dijkstraFinal (d : Int) topo n) (d : Int) n (d : Int) = (d : Int) := by
      unfold hopFor
      rw [if_pos rfl]
    rw [hhop]
    rfl
  · intro hunreach
    cases hdd : (dijkstraFinal (s : Int) topo n).dist (d : Int) with
    | none => rfl
    | some k =>
      have := final_dist_minDist hval h0 h1 (d : Int) k hdd
      exact absurd ⟨k, this.1⟩ hunreach
  · intro hds hreach
    cases hdd : (dijkstraFinal (s : Int) topo n).dist (d : Int) with
    | none =>
      exact absurd hreach (final_dist_none hval h0 h1 (d : Int) hdd)
    | some k =>
      have hmind := final_dist_minDist hval h0 h1 (d : Int) k hdd
      have hdsInt : (d : Int) ≠ (s : Int) := by
        simp only [ne_eq, Int.natCast_inj]
        exact hds
      obtain ⟨h, kh, j, hwalk, hprevh, hdh, hreachh, hsum⟩ :=
        hopWalk_correct hI hadj n (d : Int) k hdd hdsInt (belowCount_lt_n hd)
      have hhs : h ≠ (s : Int) := by
        intro heq
        rw [heq] at hprevh
        rw [hI.prev_src] at hprevh
        exact Option.noConfusion hprevh
      obtain ⟨u, c0, ku, hprevh2, hedge, hku, -, -, hsum0⟩ := hI.prev_spec h kh hhs hdh
      rw [hprevh] at hprevh2
      injection hprevh2 with hueq
      subst hueq
      rw [hI.dist_src] at hku
      injection hku with hkueq
      subst hkueq
      refine ⟨k, h, hmind, ⟨c0, j, k, hedge, hreachh, hmind, by omega⟩, ?_⟩
      have hhop : hopFor (dijkstraFinal (s : Int) topo n) (s : Int) n (d : Int) = h := by
        unfold hopFor
        rw [if_neg hdsInt, hdd, hwalk]
      rw [hhop]

/-- C1: For every effective topology over switch ids 0..N-1 with positive
integer edge costs and every source id s in 0..N-1, the shortest-path engine
returns for s an ordered list of exactly N routing entries, one per destination
d in ascending order 0..N-1, where the entry for d = s is (s, s, s, 0), the
entry for every destination d unreachable from s is (s, d, -1, 9999), and every
other entry carries the shortest-path distance from s to d and a next hop
adjacent to s lying on a shortest path to d. -/
theorem c1_shortest_path_engine (topo : NetTopology) (n : Nat) (hval : ValidTopo topo n)
    (s : Nat) (hs : s < n) :
    ∃ tbl, (compute_routing_tables topo n).lookup (s : Int) = some tbl ∧
      tbl.length = n ∧
      ∀ d : Nat, d < n →
        ∃ e, tbl.get? d = some e ∧
          (d = s → e = [(s : Int), (s : Int), (s : Int), 0]) ∧
          (¬ Reachable (adjOf topo) (s : Int) (d : Int) →
            e = [(s : Int), (d : Int), -1, 9999]) ∧
          (d ≠ s → Reachable (adjOf topo) (s : Int) (d : Int) →
            ∃ k h, MinDist (adjOf topo) (s : Int) (d : Int) k ∧
              ShortestNextHop (adjOf topo) (s : Int) (d : Int) h ∧
              e = [(s : Int), (d : Int), h, (k : Int)]) := by
  obtain ⟨hl, hlen, hprops⟩ := routingTableFor_spec topo n hval s hs
  exact ⟨routingTableFor topo n s, hl, hlen, hprops⟩

/-- Witness for C1 on the three-switch line topology with source 0. -/
theorem c1_shortest_path_engine_witness :
    ∃ tbl, (compute_routing_tables topoLine3 3).lookup ((0 : Nat) : Int) = some tbl ∧
      tbl.length = 3 ∧
      ∀ d : Nat, d < 3 →
        ∃ e, tbl.get? d = some e ∧
          (d = 0 → e = [((0 : Nat) : Int), ((0 : Nat) : Int), ((0 : Nat) : Int), 0]) ∧
          (¬ Reachable (adjOf topoLine3) ((0 : Nat) : Int) (d : Int) →
            e = [((0 : Nat) : Int), (d : Int), -1, 9999]) ∧
          (d ≠ 0 → Reachable (adjOf topoLine3) ((0 : Nat) : Int) (d : Int) →
            ∃ k h, MinDist (adjOf topoLine3) ((0 : Nat) : Int) (d : Int) k ∧
              ShortestNextHop (adjOf topoLine3) ((0 : Nat) : Int) (d : Int) h ∧
              e = [((0 : Nat) : Int), (d : Int), h, (k : Int)]) :=
  c1_shortest_path_engine topoLine3 3 (by decide) 0 (by decide)

/-- Counterexample to C4 as stated: in topoTwoPaths the equal-cost shortest
paths 0-1-3-4 and 0-2-4 (both of cost 3) have first hops 1 and 2, yet the
engine emits next hop 2 for (0, 4), not the lowest-id shortest-path next hop
1. -/
theorem c4_counterexample :
    (routingTableFor topoTwoPaths 5 0).get? 4 = some [0, 4, 2, 3] ∧
    ShortestNextHop (adjOf topoTwoPaths) 0 4 1 ∧ (1 : Int) < 2 := by
  refine ⟨by decide, ?_, by decide⟩
  have hval : ValidTopo topoTwoPaths 5 := by decide
  obtain ⟨-, -, hprops⟩ := routingTableFor_spec topoTwoPaths 5 hval 0 (by decide)
  obtain ⟨e, hget, -, -, hre⟩ := hprops 4 (by decide)
  have hpath14 : Reach (adjOf topoTwoPaths) 1 4 2 := by
    have h1 : ((3 : Int), (1 : Nat)) ∈ adjOf topoTwoPaths 1 := by decide
    have h2 : ((4 : Int), (1 : Nat)) ∈ adjOf topoTwoPaths 3 := by decide
    exact Reach.step h1 (Reach.step h2 (Reach.refl 4))
  have hpath04 : Reach (adjOf topoTwoPaths) 0 4 3 := by
    have h0 : ((1 : Int), (1 : Nat)) ∈ adjOf topoTwoPaths 0 := by decide
    exact Reach.step h0 hpath14
  obtain ⟨k, h, hmind, -, hee⟩ := hre (by decide) ⟨3, hpath04⟩
  have he : e = [0, 4, 2, 3] := by
    have h1 : (routingTableFor topoTwoPaths 5 0).get? 4 = some [0, 4, 2, 3] := by decide
    rw [hget] at h1
    injection h1
  rw [he] at hee
  have hk : k = 3 := by
    simp only [Nat.cast_ofNat, Nat.cast_zero, List.cons.injEq, and_true] at hee
    omega
  subst hk
  have hedge01 : ((1 : Int), (1 : Nat)) ∈ adjOf topoTwoPaths 0 := by decide
  exact ⟨1, 2, 3, by exact_mod_cast hedge01, by exact_mod_cast hpath14,
    by exact_mod_cast hmind, by norm_num⟩

/-- C4 amended: the engine is a pure function of its inputs, and in the 4-cycle
0-1, 1-2, 2-3, 3-0 with all costs 1 the emitted entry for source 0 and
destination 2 carries next hop 1: the lower id of the two shortest-path next
hops 1 and 3.  (In general the emitted next hop is not always the lowest-id
shortest-path next hop: the priority queue tie-break acts on frontier nodes,
not on first hops.) -/
theorem c4_equal_cost_tie :
    (routingTableFor topoCycle4 4 0).get? 2 = some [0, 2, 1, 2] ∧
    ShortestNextHop (adjOf topoCycle4) 0 2 1 ∧ ShortestNextHop (adjOf topoCycle4) 0 2 3 ∧
    (1 : Int) < 3 := by
  refine ⟨by decide, ?_, ?_, by decide⟩
  all_goals {
    have hval : ValidTopo topoCycle4 4 := by decide
    obtain ⟨-, -, hprops⟩ := routingTableFor_spec topoCycle4 4 hval 0 (by decide)
    obtain ⟨e, hget, -, -, hre⟩ := hprops 2 (by decide)
    have hpath12 : Reach (adjOf topoCycle4) 1 2 1 := by
      have h1 : ((2 : Int), (1 : Nat)) ∈ adjOf topoCycle4 1 := by decide
      exact Reach.step h1 (Reach.refl 2)
    have hpath32 : Reach (adjOf topoCycle4) 3 2 1 := by
      have h1 : ((2 : Int), (1 : Nat)) ∈ adjOf topoCycle4 3 := by decide
      exact Reach.step h1 (Reach.refl 2)
    have hpath02 : Reach (adjOf topoCycle4) 0 2 2 := by
      have h0 : ((1 : Int), (1 : Nat)) ∈ adjOf topoCycle4 0 := by decide
      exact Reach.step h0 hpath12
    obtain ⟨k, h, hmind, -, hee⟩ := hre (by decide) ⟨2, hpath02⟩
    have he : e = [0, 2, 1, 2] := by
      have h1 : (routingTableFor topoCycle4 4 0).get? 2 = some [0, 2, 1, 2] := by decide
      rw [hget] at h1
      injection h1
    rw [he] at hee
    have hk : k = 2 := by
      simp only [Nat.cast_ofNat, Nat.cast_zero, List.cons.injEq, and_true] at hee
      omega
    subst hk
    first
    | exact ⟨1, 1, 2, by decide, by exact_mod_cast hpath12, by exact_mod_cast hmind, by norm_num⟩
    | exact ⟨1, 1, 2, by decide, by exact_mod_cast hpath32, by exact_mod_cast hmind, by norm_num⟩
  }

/-! ## Dead-switch filtering (claim C6) -/

theorem routingTableFor_head (topo : NetTopology) (n s : Nat) :
    ∀ e ∈ routingTableFor topo n s, e.head? = some ((s : Nat) : Int) := by
  intro e he
  unfold routingTableFor at he
  obtain ⟨d, -, rfl⟩ := List.mem_map.mp he
  cases (dijkstraFinal ((s : Nat) : Int) topo n).dist ((d : Nat) : Int) <;> rfl

theorem mem_compute_routing_tables {topo : NetTopology} {n : Nat} {p : Int × List RoutingEntry}
    (hp : p ∈ compute_routing_tables topo n) :
    ∃ s : Nat, s < n ∧ p = ((s : Int), routingTableFor topo n s) := by
  unfold compute_routing_tables at hp
  obtain ⟨s, hs, rfl⟩ := List.mem_map.mp hp
  exact ⟨s, List.mem_range.mp hs, rfl⟩

theorem compute_routing_tables_mem (topo : NetTopology) (n : Nat) (s : Nat) (hs : s < n) :
    ((s : Int), routingTableFor topo n s) ∈ compute_routing_tables topo n := by
  unfold compute_routing_tables
  exact List.mem_map.mpr ⟨s, List.mem_range.mpr hs, rfl⟩

theorem mem_flat_routes {c : RoutingCache} {alive : List (Int × Bool)} {e : RoutingEntry}
    (he : e ∈ c.flat_routes (some alive)) :
    ∃ p ∈ c.routes_by_switch, lookupD alive p.1 false = true ∧ e ∈ p.2 := by
  unfold RoutingCache.flat_routes at he
  obtain ⟨l, hl, hel⟩ := List.mem_flatten.mp he
  obtain ⟨p, hp, rfl⟩ := List.mem_map.mp hl
  have hpf := List.mem_filter.mp hp
  exact ⟨p, hpf.1, hpf.2, hel⟩

theorem mem_send_routing_updates {sw : List (Int × SwitchInfo)}
    {routes : List (Int × List RoutingEntry)} {alive : List (Int × Bool)}
    {m : Addr × List Nat} (hm : m ∈ send_routing_updates sw routes (some alive)) :
    ∃ p ∈ routes, ∃ info, sw.lookup p.1 = some info ∧ lookupD alive p.1 false = true ∧
      m = ((info.host, info.port), serialize_routing_update p.2) := by
  unfold send_routing_updates at hm
  obtain ⟨p, hp, hf⟩ := List.mem_filterMap.mp hm
  refine ⟨p, hp, ?_⟩
  cases hsw : sw.lookup p.1 with
  | none =>
    simp only [hsw] at hf
    exact Option.noConfusion hf
  | some info =>
    simp only [hsw] at hf
    by_cases halive : lookupD alive p.1 false = true
    · rw [if_pos halive] at hf
      injection hf with hf
      exact ⟨info, rfl, halive, hf.symm⟩
    · rw [if_neg halive] at hf
      exact Option.noConfusion hf

theorem send_routing_updates_mem {sw : List (Int × SwitchInfo)}
    {routes : List (Int × List RoutingEntry)} {alive : List (Int × Bool)}
    {sid : Int} {rt : List RoutingEntry} {info : SwitchInfo}
    (hroutes : (sid, rt) ∈ routes) (hsw : sw.lookup sid = some info)
    (halive : lookupD alive sid false = true) :
    ((info.host, info.port), serialize_routing_update rt) ∈
      send_routing_updates sw routes (some alive) := by
  unfold send_routing_updates
  apply List.mem_filterMap.mpr
  exact ⟨(sid, rt), hroutes, by simp [hsw, halive]⟩

/-- C6: After every steady-state recompute that reports a change, the flat
routing table passed to the log contains no entry whose source switch is marked
dead, no ROUTING_UPDATE datagram is sent to a switch marked dead (every
datagram goes to the registered address of an alive switch), and yet the cache
per-switch routing map still contains the entries computed for dead switch ids:
only the logged and sent views are filtered. -/
theorem c6_dead_switch_filtering (tmpl : NetTopology) (n : Nat) (st : CtrlState)
    (hch : (st.cache.update (build_topology tmpl st.switch_alive st.switch_neighbors) n).2 =
      true) :
    (∃ T, (recompute_and_send tmpl n st).2.1 = [LogEvent.routingUpdate T] ∧
      ∀ e ∈ T, ∃ s : Nat, s < n ∧ e.head? = some ((s : Nat) : Int) ∧
        lookupD st.switch_alive ((s : Nat) : Int) false = true) ∧
    (∀ m ∈ (recompute_and_send tmpl n st).2.2, ∃ sid info,
      st.sw.lookup sid = some info ∧ lookupD st.switch_alive sid false = true ∧
      m.1 = (info.host, info.port)) ∧
    (∀ s : Nat, s < n → ∃ tbl,
      (recompute_and_send tmpl n st).1.cache.routes_by_switch.lookup ((s : Nat) : Int) =
        some tbl ∧ tbl.length = n) := by
  set current := build_topology tmpl st.switch_alive st.switch_neighbors with hcur
  have hc1 := update_fst_changed st.cache current n hch
  have hlogs : (recompute_and_send tmpl n st).2.1 =
      [LogEvent.routingUpdate
        ((st.cache.update current n).1.flat_routes (some st.switch_alive))] := by
    simp [recompute_and_send, ← hcur, hch]
  have hmsgs : (recompute_and_send tmpl n st).2.2 =
      send_routing_updates st.sw (st.cache.update current n).1.routes_by_switch
        (some st.switch_alive) := by
    simp [recompute_and_send, ← hcur, hch]
  refine ⟨⟨_, hlogs, ?_⟩, ?_, ?_⟩
  · intro e he
    obtain ⟨p, hp, halive, hel⟩ := mem_flat_routes he
    rw [hc1] at hp
    obtain ⟨s, hsn, rfl⟩ := mem_compute_routing_tables hp
    exact ⟨s, hsn, routingTableFor_head current n s e hel, halive⟩
  · intro m hm
    rw [hmsgs] at hm
    obtain ⟨p, hp, info, hsw, halive, rfl⟩ := mem_send_routing_updates hm
    exact ⟨p.1, info, hsw, halive, rfl⟩
  · intro s hs
    have hcache : (recompute_and_send tmpl n st).1.cache = (st.cache.update current n).1 := by
      rw [recompute_fst]
    rw [hcache, hc1]
    exact ⟨routingTableFor current n s,
      compute_routing_tables_lookup current n s hs, by simp [routingTableFor]⟩

/-- Witness for C6: two-switch line with switch 1 dead and a cold cache. -/
theorem c6_dead_switch_filtering_witness :
    (∃ T, (recompute_and_send tmplTwo 2 stTwo).2.1 = [LogEvent.routingUpdate T] ∧
      ∀ e ∈ T, ∃ s : Nat, s < 2 ∧ e.head? = some ((s : Nat) : Int) ∧
        lookupD stTwo.switch_alive ((s : Nat) : Int) false = true) ∧
    (∀ m ∈ (recompute_and_send tmplTwo 2 stTwo).2.2, ∃ sid info,
      stTwo.sw.lookup sid = some info ∧ lookupD stTwo.switch_alive sid false = true ∧
      m.1 = (info.host, info.port)) ∧
    (∀ s : Nat, s < 2 → ∃ tbl,
      (recompute_and_send tmplTwo 2 stTwo).1.cache.routes_by_switch.lookup ((s : Nat) : Int) =
        some tbl ∧ tbl.length = 2) :=
  c6_dead_switch_filtering tmplTwo 2 stTwo (by decide)

/-! ## Re-registration (claim C9) -/

theorem mem_setk {α β : Type} [BEq α] [LawfulBEq α] {m : List (α × β)} {k : α} {v : β}
    {q : α × β} (hq : q ∈ setk m k v) : q ∈ m ∨ q = (k, v) := by
  unfold setk at hq
  by_cases h : m.any (fun p => p.1 == k) = true
  · rw [if_pos h] at hq
    obtain ⟨p, hp, hpq⟩ := List.mem_map.mp hq
    by_cases hpk : (p.1 == k) = true
    · rw [if_pos hpk] at hpq
      exact Or.inr hpq.symm
    · rw [if_neg hpk] at hpq
      exact Or.inl (hpq ▸ hp)
  · rw [if_neg h] at hq
    rcases List.mem_append.mp hq with h1 | h1
    · exact Or.inl h1
    · exact Or.inr (List.mem_singleton.mp h1)

theorem setk_key_mem {α β : Type} [BEq α] [LawfulBEq α] (m : List (α × β)) (k : α) (v : β)
    {x : α} (hx : x ∈ m.map Prod.fst) : x ∈ (setk m k v).map Prod.fst := by
  unfold setk
  by_cases h : m.any (fun p => p.1 == k) = true
  · rw [if_pos h]
    obtain ⟨p, hp, rfl⟩ := List.mem_map.mp hx
    by_cases hpk : (p.1 == k) = true
    · refine List.mem_map.mpr ⟨(k, v), List.mem_map.mpr ⟨p, hp, by rw [if_pos hpk]⟩, ?_⟩
      exact (eq_of_beq hpk).symm
    · exact List.mem_map.mpr ⟨p, List.mem_map.mpr ⟨p, hp, by rw [if_neg hpk]⟩, rfl⟩
  · rw [if_neg h, List.map_append]
    exact List.mem_append_left _ hx

theorem setk_key_self {α β : Type} [BEq α] [LawfulBEq α] (m : List (α × β)) (k : α) (v : β) :
    k ∈ (setk m k v).map Prod.fst := by
  unfold setk
  by_cases h : m.any (fun p => p.1 == k) = true
  · rw [if_pos h]
    obtain ⟨p, hp, hpk⟩ := List.any_eq_true.mp h
    exact List.mem_map.mpr ⟨(k, v), List.mem_map.mpr ⟨p, hp, by rw [if_pos hpk]⟩, rfl⟩
  · rw [if_neg h, List.map_append]
    exact List.mem_append_right _ (by simp)

theorem mem_foldl_setk {α β : Type} [BEq α] [LawfulBEq α] :
    ∀ (l acc : List (α × β)) (q : α × β),
      q ∈ l.foldl (fun m p => setk m p.1 p.2) acc → q ∈ acc ∨ q ∈ l := by
  intro l
  induction l with
  | nil => exact fun acc q hq => Or.inl hq
  | cons p rest ih =>
    intro acc q hq
    rcases ih (setk acc p.1 p.2) q hq with h1 | h1
    · rcases mem_setk h1 with h2 | h2
      · exact Or.inl h2
      · exact Or.inr (by rw [h2]; exact List.mem_cons_self p rest)
    · exact Or.inr (List.mem_cons_of_mem p h1)

theorem mem_dictOfList {α β : Type} [BEq α] [LawfulBEq α] {l : List (α × β)} {q : α × β}
    (hq : q ∈ dictOfList l) : q ∈ l := by
  rcases mem_foldl_setk l [] q hq with h | h
  · exact absurd h (List.not_mem_nil q)
  · exact h

theorem key_mem_foldl_setk {α β : Type} [BEq α] [LawfulBEq α] :
    ∀ (l acc : List (α × β)) (x : α),
      x ∈ acc.map Prod.fst ∨ x ∈ l.map Prod.fst →
      x ∈ (l.foldl (fun m p => setk m p.1 p.2) acc).map Prod.fst := by
  intro l
  induction l with
  | nil =>
    intro acc x hx
    rcases hx with h | h
    · exact h
    · exact absurd h (by simp)
  | cons p rest ih =>
    intro acc x hx
    apply ih (setk acc p.1 p.2) x
    rcases hx with h | h
    · exact Or.inl (setk_key_mem acc p.1 p.2 h)
    · rw [List.map_cons] at h
      rcases List.mem_cons.mp h with h2 | h2
      · exact Or.inl (by rw [h2]; exact setk_key_self acc p.1 p.2)
      · exact Or.inr h2

theorem dictOfList_key_mem {α β : Type} [BEq α] [LawfulBEq α] {l : List (α × β)} {x : α}
    (hx : x ∈ l.map Prod.fst) : x ∈ (dictOfList l).map Prod.fst :=
  key_mem_foldl_setk l [] x (Or.inr hx)

theorem bnot_lookupD_true_eq_true_iff {α : Type} [BEq α] (l : List (α × Bool)) (k : α) :
    ((!(lookupD l k true)) = true) ↔ l.lookup k = some false := by
  unfold lookupD
  cases h : l.lookup k with
  | none => simp
  | some b => cases b <;> simp

/-- C9: On a steady-state REGISTER_REQUEST from switch sid the controller
overwrites sid's registration record with the datagram source host and the
announced port; the log is Register Request, Register Response, then Switch
Alive exactly when sid was marked dead, then the recompute logs (empty or a
single Routing Update); the first datagram sent is a fresh REGISTER_RESPONSE
built from the post-overwrite registry and the current alive map; sid's
reported-neighbor vector is reset to all-true over its declared neighbors;
sid is marked alive and its last-heard timestamp refreshed; the last datagram
sent is sid's own routing table (sent even when the cache reported no
change); and when the recompute did log a Routing Update that routing-table
datagram occurs at least twice among the sent messages. -/
theorem c9_reregistration (tmpl : NetTopology) (n : Nat) (st : CtrlState)
    (addrHost : List Nat) (now : Nat) (sid sport : Int)
    (hsid : ∃ s0 : Nat, s0 < n ∧ sid = ((s0 : Nat) : Int))
    (r : CtrlState × List LogEvent × List (Addr × List Nat))
    (hr : r = register_request_step tmpl n st addrHost now sid sport) :
    r.1.sw.lookup sid = some ⟨addrHost, sport⟩ ∧
    (∃ logs2, r.2.1 = [LogEvent.registerRequest sid, LogEvent.registerResponse sid] ++
        (if st.switch_alive.lookup sid = some false then [LogEvent.switchAlive sid] else []) ++
        logs2 ∧
      (logs2 = [] ∨ ∃ T, logs2 = [LogEvent.routingUpdate T])) ∧
    r.2.2.head? = some ((addrHost, sport),
      serialize_register_response (build_neighbor_list tmpl sid
        (setk st.sw sid ⟨addrHost, sport⟩) (some st.switch_alive))) ∧
    (∃ nbv, r.1.switch_neighbors.lookup sid = some nbv ∧
      (∀ q ∈ nbv, q.2 = true ∧ q.1 ∈ (adjOf tmpl sid).map Prod.fst) ∧
      (∀ nid ∈ (adjOf tmpl sid).map Prod.fst, nid ∈ nbv.map Prod.fst)) ∧
    r.1.switch_alive.lookup sid = some true ∧
    r.1.last_heard.lookup sid = some now ∧
    r.2.2.getLast? = some ((addrHost, sport),
      serialize_routing_update (lookupD r.1.cache.routes_by_switch sid [])) ∧
    ((∃ T, LogEvent.routingUpdate T ∈ r.2.1) →
      2 ≤ r.2.2.count ((addrHost, sport),
        serialize_routing_update (lookupD r.1.cache.routes_by_switch sid []))) := by
  subst hr
  obtain ⟨s0, hs0n, rfl⟩ := hsid
  set st1 : CtrlState :=
    { sw := setk st.sw ((s0 : Nat) : Int) ⟨addrHost, sport⟩,
      switch_alive := setk st.switch_alive ((s0 : Nat) : Int) true,
      last_heard := setk st.last_heard ((s0 : Nat) : Int) now,
      switch_neighbors := setk st.switch_neighbors ((s0 : Nat) : Int)
        (dictOfList ((adjOf tmpl ((s0 : Nat) : Int)).map fun p => (p.1, true))),
      cache := st.cache } with hst1
  have h1 : (register_request_step tmpl n st addrHost now ((s0 : Nat) : Int) sport).1 =
      (recompute_and_send tmpl n st1).1 := rfl
  have hlog : (register_request_step tmpl n st addrHost now ((s0 : Nat) : Int) sport).2.1 =
      [LogEvent.registerRequest ((s0 : Nat) : Int),
        LogEvent.registerResponse ((s0 : Nat) : Int)] ++
        (if (!(lookupD st.switch_alive ((s0 : Nat) : Int) true)) = true
          then [LogEvent.switchAlive ((s0 : Nat) : Int)] else []) ++
        (recompute_and_send tmpl n st1).2.1 := rfl
  have hmsg : (register_request_step tmpl n st addrHost now ((s0 : Nat) : Int) sport).2.2 =
      ((addrHost, sport),
        serialize_register_response
          (build_neighbor_list tmpl ((s0 : Nat) : Int)
            (setk st.sw ((s0 : Nat) : Int) ⟨addrHost, sport⟩) (some st.switch_alive))) ::
        (recompute_and_send tmpl n st1).2.2 ++
        [((addrHost, sport),
          serialize_routing_update
            (lookupD (recompute_and_send tmpl n st1).1.cache.routes_by_switch
              ((s0 : Nat) : Int) []))] := rfl
  have hfst : (register_request_step tmpl n st addrHost now ((s0 : Nat) : Int) sport).1 =
      { st1 with cache := (st1.cache.update
          (build_topology tmpl st1.switch_alive st1.switch_neighbors) n).1 } := by
    rw [h1, recompute_fst]
  refine ⟨?_, ?_, ?_, ?_, ?_, ?_, ?_, ?_⟩
  · rw [hfst]
    exact lookup_setk_self st.sw ((s0 : Nat) : Int) ⟨addrHost, sport⟩
  · rw [hlog]
    refine ⟨(recompute_and_send tmpl n st1).2.1, ?_, ?_⟩
    · by_cases hd : st.switch_alive.lookup ((s0 : Nat) : Int) = some false
      · rw [if_pos ((bnot_lookupD_true_eq_true_iff st.switch_alive _).mpr hd), if_pos hd]
      · rw [if_neg (fun hc =>
            hd ((bnot_lookupD_true_eq_true_iff st.switch_alive _).mp hc)), if_neg hd]
    · cases hch : (st1.cache.update
          (build_topology tmpl st1.switch_alive st1.switch_neighbors) n).2 with
      | false => exact Or.inl (recompute_no_change tmpl n st1 hch).1
      | true =>
        refine Or.inr ⟨(st1.cache.update
            (build_topology tmpl st1.switch_alive st1.switch_neighbors) n).1.flat_routes
            (some st1.switch_alive), ?_⟩
        simp [recompute_and_send, hch]
  · rw [hmsg]
    rfl
  · refine ⟨dictOfList ((adjOf tmpl ((s0 : Nat) : Int)).map fun p => (p.1, true)), ?_, ?_, ?_⟩
    · rw [hfst]
      exact lookup_setk_self st.switch_neighbors ((s0 : Nat) : Int) _
    · intro q hq
      obtain ⟨p, hp, rfl⟩ := List.mem_map.mp (mem_dictOfList hq)
      exact ⟨rfl, List.mem_map.mpr ⟨p, hp, rfl⟩⟩
    · intro nid hnid
      obtain ⟨p, hp, rfl⟩ := List.mem_map.mp hnid
      exact dictOfList_key_mem
        (List.mem_map.mpr ⟨(p.1, true), List.mem_map.mpr ⟨p, hp, rfl⟩, rfl⟩)
  · rw [hfst]
    exact lookup_setk_self st.switch_alive ((s0 : Nat) : Int) true
  · rw [hfst]
    exact lookup_setk_self st.last_heard ((s0 : Nat) : Int) now
  · rw [hmsg, h1]
    exact List.getLast?_concat _
  · rintro ⟨T, hT⟩
    cases hch : (st1.cache.update
        (build_topology tmpl st1.switch_alive st1.switch_neighbors) n).2 with
    | false =>
      exfalso
      rw [hlog, (recompute_no_change tmpl n st1 hch).1] at hT
      by_cases hd : (!(lookupD st.switch_alive ((s0 : Nat) : Int) true)) = true
      · rw [if_pos hd] at hT
        simp at hT
      · rw [if_neg hd] at hT
        simp at hT
    | true =>
      have hcur := update_fst_changed st1.cache
        (build_topology tmpl st1.switch_alive st1.switch_neighbors) n hch
      have hroutes : (recompute_and_send tmpl n st1).1.cache.routes_by_switch =
          compute_routing_tables
            (build_topology tmpl st1.switch_alive st1.switch_neighbors) n := by
        rw [recompute_fst, hcur]
      have hlook : lookupD (recompute_and_send tmpl n st1).1.cache.routes_by_switch
          ((s0 : Nat) : Int) [] =
          routingTableFor (build_topology tmpl st1.switch_alive st1.switch_neighbors) n s0 := by
        rw [hroutes]
        unfold lookupD
        rw [compute_routing_tables_lookup _ n s0 hs0n]
        rfl
      have hswl : st1.sw.lookup ((s0 : Nat) : Int) = some ⟨addrHost, sport⟩ := by
        rw [hst1]
        exact lookup_setk_self st.sw _ _
      have halv : lookupD st1.switch_alive ((s0 : Nat) : Int) false = true := by
        rw [hst1]
        exact lookupD_setk_self st.switch_alive _ true false
      have hmemtbl : (((s0 : Nat) : Int),
          routingTableFor (build_topology tmpl st1.switch_alive st1.switch_neighbors) n s0) ∈
          compute_routing_tables
            (build_topology tmpl st1.switch_alive st1.switch_neighbors) n :=
        compute_routing_tables_mem _ n s0 hs0n
      have hbmsg : ((addrHost, sport),
          serialize_routing_update
            (routingTableFor (build_topology tmpl st1.switch_alive st1.switch_neighbors) n s0)) ∈
          (recompute_and_send tmpl n st1).2.2 := by
        have hmm : (recompute_and_send tmpl n st1).2.2 =
            send_routing_updates st1.sw
              ((st1.cache.update
                (build_topology tmpl st1.switch_alive st1.switch_neighbors) n).1).routes_by_switch
              (some st1.switch_alive) := by
          simp [recompute_and_send, hch]
        rw [hmm, hcur]
        exact send_routing_updates_mem hmemtbl hswl halv
      rw [hmsg, h1, hlook]
      have h2 : 1 ≤ List.count ((addrHost, sport),
          serialize_routing_update
            (routingTableFor (build_topology tmpl st1.switch_alive st1.switch_neighbors) n s0))
          (recompute_and_send tmpl n st1).2.2 := List.count_pos_iff.mpr hbmsg
      rw [List.count_append, List.count_singleton_self]
      have h4 := (List.sublist_cons_self
          ((addrHost, sport),
            serialize_register_response
              (build_neighbor_list tmpl ((s0 : Nat) : Int)
                (setk st.sw ((s0 : Nat) : Int) ⟨addrHost, sport⟩) (some st.switch_alive)))
          (recompute_and_send tmpl n st1).2.2).count_le
        ((addrHost, sport),
          serialize_routing_update
            (routingTableFor (build_topology tmpl st1.switch_alive st1.switch_neighbors) n s0))
      omega

/-- Witness for C9: switch 1 of the two-switch line re-registers from
LOCALHOST with announced port 7001 at time 5. -/
theorem c9_reregistration_witness :
    (∃ s0 : Nat, s0 < 2 ∧ (1 : Int) = ((s0 : Nat) : Int)) ∧
    ((register_request_step tmplTwo 2 stTwo LOCALHOST 5 1 7001).1.sw.lookup 1 =
        some ⟨LOCALHOST, 7001⟩ ∧
      (∃ logs2, (register_request_step tmplTwo 2 stTwo LOCALHOST 5 1 7001).2.1 =
          [LogEvent.registerRequest 1, LogEvent.registerResponse 1] ++
          (if stTwo.switch_alive.lookup 1 = some false
            then [LogEvent.switchAlive 1] else []) ++ logs2 ∧
        (logs2 = [] ∨ ∃ T, logs2 = [LogEvent.routingUpdate T])) ∧
      (register_request_step tmplTwo 2 stTwo LOCALHOST 5 1 7001).2.2.head? =
        some ((LOCALHOST, 7001),
          serialize_register_response (build_neighbor_list tmplTwo 1
            (setk stTwo.sw 1 ⟨LOCALHOST, 7001⟩) (some stTwo.switch_alive))) ∧
      (∃ nbv, (register_request_step tmplTwo 2 stTwo LOCALHOST 5 1
          7001).1.switch_neighbors.lookup 1 = some nbv ∧
        (∀ q ∈ nbv, q.2 = true ∧ q.1 ∈ (adjOf tmplTwo 1).map Prod.fst) ∧
        (∀ nid ∈ (adjOf tmplTwo 1).map Prod.fst, nid ∈ nbv.map Prod.fst)) ∧
      (register_request_step tmplTwo 2 stTwo LOCALHOST 5 1 7001).1.switch_alive.lookup 1 =
        some true ∧
      (register_request_step tmplTwo 2 stTwo LOCALHOST 5 1 7001).1.last_heard.lookup 1 =
        some 5 ∧
      (register_request_step tmplTwo 2 stTwo LOCALHOST 5 1 7001).2.2.getLast? =
        some ((LOCALHOST, 7001),
          serialize_routing_update
            (lookupD (register_request_step tmplTwo 2 stTwo LOCALHOST 5 1
              7001).1.cache.routes_by_switch 1 [])) ∧
      ((∃ T, LogEvent.routingUpdate T ∈
          (register_request_step tmplTwo 2 stTwo LOCALHOST 5 1 7001).2.1) →
        2 ≤ (register_request_step tmplTwo 2 stTwo LOCALHOST 5 1 7001).2.2.count
          ((LOCALHOST, 7001),
            serialize_routing_update
              (lookupD (register_request_step tmplTwo 2 stTwo LOCALHOST 5 1
                7001).1.cache.routes_by_switch 1 [])))) :=
  ⟨⟨1, by decide, rfl⟩,
    c9_reregistration tmplTwo 2 stTwo LOCALHOST 5 1 7001 ⟨1, by decide, rfl⟩ _ rfl⟩
